import Mathlib

/-!
Verification development for the CODE_WRITER English-to-code translator.

The definitions below are a shallow embedding of the translator's core
pipeline (js/preprocessor.js, js/tokenizer.js, js/grammar.js, js/parser.js,
js/generator.js from the repository).  JavaScript strings are modelled as
`List Char` / `String`; `null`/`undefined` fields are modelled with `Option`;
JavaScript regular expressions are transcribed as explicit character-list
matchers.  `toLowerCase`, the `\w`/`\s` character classes and `trim` are
modelled at the ASCII level (all inputs appearing in the theorems are ASCII).
Recursion that is not structural in the source (the global regex scan of the
preprocessor, the recursive body re-parsing of the parser) is expressed with
an explicit fuel parameter; fuel-sufficiency is proved where a claim needs it.
-/

namespace CodeWriter

/-- The double-quote character. -/
def dq : Char := Char.ofNat 34

/-- The single-quote character. -/
def sq : Char := Char.ofNat 39

/-- The backslash character. -/
def bsl : Char := Char.ofNat 92

/-- Newline. -/
def nlc : Char := Char.ofNat 10

/-- Carriage return. -/
def crc : Char := Char.ofNat 13

/-- JavaScript `\w` (word character): `[A-Za-z0-9_]`. -/
def isWordChar (c : Char) : Bool :=
  c.isAlpha || c.isDigit || c == '_'

/-- JavaScript `\s` whitespace (ASCII part). -/
def isJsSpace (c : Char) : Bool :=
  c == ' ' || c == Char.ofNat 9 || c == nlc || c == crc ||
  c == Char.ofNat 11 || c == Char.ofNat 12

/-- `String.prototype.trim` on character lists. -/
def trimJS (l : List Char) : List Char :=
  ((l.dropWhile isJsSpace).reverse.dropWhile isJsSpace).reverse

/-- Helper state machine for collapsing whitespace runs (`replace(/\s+/g, " ")`):
the flag records whether the previous character was whitespace. -/
def collapseWsAux : Bool → List Char → List Char
  | _, [] => []
  | prevSpace, c :: cs =>
    if isJsSpace c then
      if prevSpace then collapseWsAux true cs
      else ' ' :: collapseWsAux true cs
    else c :: collapseWsAux false cs

/-- `replace(/\s+/g, " ")`: every run of whitespace becomes a single space. -/
def collapseWs (l : List Char) : List Char := collapseWsAux false l

/-- `split(" ")` on character lists; like JavaScript, splitting the empty
string yields one empty field. -/
def splitSp : List Char → List (List Char)
  | [] => [[]]
  | c :: cs =>
    if c == ' ' then [] :: splitSp cs
    else
      match splitSp cs with
      | w :: ws => (c :: w) :: ws
      | [] => [[c]]

/-- `join(" ")` on character lists. -/
def joinSp : List (List Char) → List Char
  | [] => []
  | [w] => w
  | w :: ws => w ++ ' ' :: joinSp ws

/-- Split on whitespace runs (`split(/\s+/)` of an already-trimmed string),
accumulating the current word in reverse. -/
def wsWordsAux : List Char → List Char → List (List Char)
  | [], acc => if acc.isEmpty then [] else [acc.reverse]
  | c :: cs, acc =>
    if isJsSpace c then
      if acc.isEmpty then wsWordsAux cs []
      else acc.reverse :: wsWordsAux cs []
    else wsWordsAux cs (c :: acc)

/-- Split a string into whitespace-separated words, dropping empty fields. -/
def wsWords (l : List Char) : List (List Char) := wsWordsAux l []

/-- Does `t` occur at the head of `s`? -/
def leadsWith : List Char → List Char → Bool
  | [], _ => true
  | _ :: _, [] => false
  | t :: ts, s :: ss => t == s && leadsWith ts ss

/-- `String.prototype.replace` with a plain-string search value: replace the
first occurrence of `target` by `repl`.  (The `$`-substitution feature of the
replacement argument is not modelled; no replacement string used by the
pipeline's restore step is examined anywhere it would matter for ASCII
placeholder text, and none of the inputs in this file contains `$`.) -/
def replaceFirstSeq (target repl : List Char) : List Char → List Char
  | [] => if leadsWith target [] then repl else []
  | c :: cs =>
    if leadsWith target (c :: cs) then repl ++ (c :: cs).drop target.length
    else c :: replaceFirstSeq target repl cs

/-- Does `t` occur anywhere inside `s`? -/
def containsSeq (s t : List Char) : Bool :=
  match s with
  | [] => leadsWith t []
  | _ :: cs => leadsWith t s || containsSeq cs t

/-- String-level wrapper for `containsSeq`. -/
def strHas (s t : String) : Bool := containsSeq s.data t.data

/-- The synonym dictionary of js/synonyms.js, in source order.  The source is
a JavaScript object literal, so a key written twice (`put`, `lower`) ends up
bound to its later value; `synLookup` reproduces that by folding left and
letting later entries overwrite earlier ones. -/
def SYNONYMS : List (String × String) := [
  ("make", "create"),
  ("declare", "create"),
  ("define", "create"),
  ("initialize", "create"),
  ("init", "create"),
  ("new", "create"),
  ("let", "create"),
  ("var", "create"),
  ("assign", "set"),
  ("update", "set"),
  ("change", "set"),
  ("modify", "set"),
  ("put", "set"),
  ("equal", "value"),
  ("equals", "value"),
  ("as", "value"),
  ("with", "value"),
  ("of", "value"),
  ("be", "value"),
  ("display", "print"),
  ("show", "print"),
  ("output", "print"),
  ("write", "print"),
  ("log", "print"),
  ("echo", "print"),
  ("say", "print"),
  ("read", "input"),
  ("get", "input"),
  ("ask", "input"),
  ("prompt", "input"),
  ("accept", "input"),
  ("receive", "input"),
  ("plus", "add"),
  ("sum", "add"),
  ("subtract", "subtract"),
  ("minus", "subtract"),
  ("difference", "subtract"),
  ("multiply", "multiply"),
  ("times", "multiply"),
  ("product", "multiply"),
  ("divide", "divide"),
  ("over", "divide"),
  ("quotient", "divide"),
  ("modulo", "modulus"),
  ("mod", "modulus"),
  ("remainder", "modulus"),
  ("bigger", "greater"),
  ("more", "greater"),
  ("above", "greater"),
  ("larger", "greater"),
  ("exceeds", "greater"),
  ("smaller", "less"),
  ("below", "less"),
  ("fewer", "less"),
  ("lower", "less"),
  ("under", "less"),
  ("same", "equal_to"),
  ("identical", "equal_to"),
  ("matches", "equal_to"),
  ("not", "not"),
  ("different", "not_equal"),
  ("unequal", "not_equal"),
  ("also", "and"),
  ("both", "and"),
  ("either", "or"),
  ("otherwise", "else"),
  ("alternatively", "else"),
  ("repeat", "while"),
  ("loop", "while"),
  ("iterate", "for"),
  ("increase", "increment"),
  ("raise", "increment"),
  ("grow", "increment"),
  ("decrease", "decrement"),
  ("reduce", "decrement"),
  ("shrink", "decrement"),
  ("lower", "decrement"),
  ("function", "function"),
  ("func", "function"),
  ("method", "function"),
  ("procedure", "function"),
  ("routine", "function"),
  ("subroutine", "function"),
  ("invoke", "call"),
  ("execute", "call"),
  ("run", "call"),
  ("give", "return"),
  ("send", "return"),
  ("respond", "return"),
  ("array", "list"),
  ("collection", "list"),
  ("push", "append"),
  ("insert", "append"),
  ("note", "comment"),
  ("remark", "comment"),
  ("save", "store"),
  ("keep", "store"),
  ("place", "store"),
  ("put", "store"),
  ("to", "to"),
  ("into", "to"),
  ("in", "in"),
  ("from", "from"),
  ("than", "than"),
  ("then", "then"),
  ("do", "do"),
  ("does", "do")]

/-- The part of the `Object.prototype` chain visible through `SYNONYMS[word]`
on a plain object literal.  The preprocessor lowercases its words first, so
only the two all-lowercase prototype property names can be hit:
`SYNONYMS["constructor"]` is the `Object` function and
`SYNONYMS["__proto__"]` is `Object.prototype`; both are `!== undefined`.
The stored strings are what `Array.prototype.join` produces when those
inherited values are stringified in step 8 of `preprocess`. -/
def protoLookup (w : String) : Option String :=
  if w == "constructor" then some ("function Object() \x7b [native code] \x7d")
  else if w == "__proto__" then some "[object Object]"
  else none

/-- `SYNONYMS[word]` under JavaScript object semantics: own properties come
from the literal entries (the last binding of a duplicated key wins), and a
miss falls through to the `Object.prototype` chain. -/
def synLookup (w : String) : Option String :=
  match SYNONYMS.foldl (fun acc p => if p.1 == w then some p.2 else acc) none with
  | some v => some v
  | none => protoLookup w

/-- The filler / stop word set of js/synonyms.js. -/
def FILLER_WORDS : List String := [
  "please", "the", "a", "an", "is", "are", "was", "were", "it", "its",
  "this", "that", "these", "those", "my", "your", "his", "her", "our",
  "their", "should", "would", "could", "can", "will", "shall", "may",
  "might", "must", "now", "just", "also", "so", "very", "really",
  "actually", "basically", "simply", "just", "named", "called"]

/-- Step 6 of `preprocess`: keep a word if it is a synonym key, otherwise
drop it when it is a filler word. -/
def keepWord (w : String) : Bool :=
  (synLookup w).isSome || !(FILLER_WORDS.contains w)

/-- Step 7 of `preprocess`: map a word through the synonym table. -/
def mapSyn (w : String) : String := (synLookup w).getD w

/-- The lazy body of the string-literal regex
`(["'])(?:(?=(\\?))\2.)*?\1` after an opening quote `q`: returns the matched
contents and the characters after the closing quote.  At each position the
lazy star first tries to close; a unit is either an escaped pair
(backslash plus any non-newline character, preferred) or a single
non-newline character. -/
def matchQuoted (q : Char) : List Char → Option (List Char × List Char)
  | [] => none
  | [c] => if c == q then some ([], []) else none
  | c :: c2 :: cs2 =>
    if c == q then some ([], c2 :: cs2)
    else if c == nlc || c == crc then none
    else if c == bsl then
      if c2 == nlc || c2 == crc then
        (matchQuoted q (c2 :: cs2)).map (fun p => (c :: p.1, p.2))
      else
        match matchQuoted q cs2 with
        | some p => some (c :: c2 :: p.1, p.2)
        | none => (matchQuoted q (c2 :: cs2)).map (fun p => (c :: p.1, p.2))
    else (matchQuoted q (c2 :: cs2)).map (fun p => (c :: p.1, p.2))

/-- The placeholder text `__STRING_<i>__` (as produced while extracting). -/
def placeholderFor (i : Nat) : List Char :=
  ("__STRING_" ++ toString i ++ "__").data

/-- The search text `__string_<i>__` used by the restore step. -/
def searchFor (i : Nat) : List Char :=
  ("__string_" ++ toString i ++ "__").data

/-- The global regex replace of step 2 of `preprocess`: scan left to right;
at a quote character attempt the quoted-literal match, and on success store
the contents and emit a placeholder, continuing after the match; on failure
(no closing quote) the quote character stays and scanning resumes after it.
`fuel` bounds the recursion; every step consumes at least one character, so
`l.length` fuel suffices (see `extractScanF_fuel`). -/
def extractScanF : Nat → List Char → Nat → (List Char × List (List Char))
  | 0, l, _ => (l, [])
  | _ + 1, [], _ => ([], [])
  | fuel + 1, c :: cs, idx =>
    if c == dq || c == sq then
      match matchQuoted c cs with
      | some (content, rest) =>
        let p := extractScanF fuel rest (idx + 1)
        (placeholderFor idx ++ p.1, content :: p.2)
      | none =>
        let p := extractScanF fuel cs idx
        (c :: p.1, p.2)
    else
      let p := extractScanF fuel cs idx
      (c :: p.1, p.2)

/-- Step 8 of `preprocess`: restore each stored literal by replacing the
first occurrence of `__string_<i>__` with the quoted contents. -/
def restoreLits : List (List Char) → Nat → List Char → List Char
  | [], _, r => r
  | lit :: rest, i, r =>
    restoreLits rest (i + 1) (replaceFirstSeq (searchFor i) (dq :: (lit ++ [dq])) r)

/-- Steps 1-8 of `preprocess` (js/preprocessor.js) on a character list. -/
def preprocessCore (l : List Char) : List Char :=
  let c1 := trimJS (l.map Char.toLower)
  let ext := extractScanF c1.length c1 0
  let c3 := ext.1.map (fun c => if isWordChar c || isJsSpace c then c else ' ')
  let c4 := trimJS (collapseWs c3)
  let ws := splitSp c4
  let ws2 := ws.filter (fun w => keepWord (String.mk w))
  let ws3 := ws2.map (fun w => (mapSyn (String.mk w)).data)
  restoreLits ext.2 0 (joinSp ws3)

/-- `preprocess(input)`: empty input yields the empty string. -/
def preprocess (s : String) : String :=
  if s == "" then "" else String.mk (preprocessCore s.data)

/-- Split on newline characters (like `split("\n")`). -/
def splitNlL : List Char → List (List Char)
  | [] => [[]]
  | c :: cs =>
    if c == nlc then [] :: splitNlL cs
    else
      match splitNlL cs with
      | w :: ws => (c :: w) :: ws
      | [] => [[c]]

/-- `preprocessLines(input)`: split on newlines, trim, drop blank raw lines,
preprocess the survivors. -/
def preprocessLines (s : String) : List String :=
  if s == "" then []
  else ((((splitNlL s.data).map trimJS).filter (fun l => !l.isEmpty)).map
    (fun l => preprocess (String.mk l)))

/-! ## Tokenizer (js/tokenizer.js) -/

/-- The recognized keyword set (canonical forms after synonym mapping). -/
def KEYWORDS : List String := [
  "create", "set", "print", "input", "add", "subtract", "multiply",
  "divide", "modulus",
  "increment", "decrement", "if", "else", "while", "for", "do", "then",
  "define", "function", "call", "return", "append", "comment",
  "greater", "less", "equal_to", "not", "not_equal",
  "variable", "list", "array",
  "value", "to", "in", "from", "than", "store", "and", "or",
  "end", "by", "with", "parameter", "parameters", "result",
  "true", "false"]

/-- Token classification tags (the `TokenType` constants). -/
inductive TokenType where
  | KEYWORD
  | IDENTIFIER
  | NUMBER
  | STRING
  | BOOLEAN
  | UNKNOWN
deriving DecidableEq, Repr

/-- A classified token. -/
structure Token where
  type : TokenType
  value : String
deriving DecidableEq, Repr

/-- The regex `^-?\d+(\.\d+)?$` (`isNumber`). -/
def isNumberChars (l : List Char) : Bool :=
  let l1 := match l with
    | c :: cs => if c == '-' then cs else l
    | [] => l
  let intPart := l1.takeWhile Char.isDigit
  let rest := l1.drop intPart.length
  !intPart.isEmpty &&
    (rest.isEmpty ||
      (rest.head? == some '.' && !rest.tail.isEmpty && rest.tail.all Char.isDigit))

/-- `^<q>.*<q>$` where `.` excludes line terminators (used by `isString`). -/
def isQuotedBy (q : Char) (l : List Char) : Bool :=
  match l with
  | [] => false
  | c :: cs =>
    c == q && !cs.isEmpty && cs.getLast? == some q &&
      cs.dropLast.all (fun ch => !(ch == nlc || ch == crc))

/-- The regex `^[a-z_][a-z0-9_]*$/i` (identifier shape). -/
def isIdentChars (l : List Char) : Bool :=
  match l with
  | [] => false
  | c :: cs =>
    (c.isAlpha || c == '_') && cs.all (fun ch => ch.isAlpha || ch.isDigit || ch == '_')

/-- The quote-preserving splitter at the start of `tokenize`: outside quotes,
a quote character flushes the pending text (trimmed and split on whitespace)
and opens a quoted part; inside quotes, only the matching quote character
closes the part (quote included on both ends); any other character is
accumulated.  Unfinished text (including an unterminated quote) is flushed,
trimmed and split at the end. -/
def tokSplit : List Char → List Char → Bool → Char → List (List Char)
  | [], current, _, _ =>
    if (trimJS current).isEmpty then [] else wsWords (trimJS current)
  | ch :: rest, current, inQuote, quoteChar =>
    if !inQuote && (ch == dq || ch == sq) then
      (if (trimJS current).isEmpty then [] else wsWords (trimJS current)) ++
        tokSplit rest [ch] true ch
    else if inQuote && ch == quoteChar then
      (current ++ [ch]) :: tokSplit rest [] false quoteChar
    else tokSplit rest (current ++ [ch]) inQuote quoteChar

/-- Classify one split part (the body of the `for (const word of parts)`
loop of `tokenize`). -/
def classifyWord (w : List Char) : Token :=
  if isQuotedBy dq w || isQuotedBy sq w then
    ⟨TokenType.STRING, String.mk w.tail.dropLast⟩
  else if isNumberChars w then ⟨TokenType.NUMBER, String.mk w⟩
  else if String.mk w == "true" || String.mk w == "false" then
    ⟨TokenType.BOOLEAN, String.mk w⟩
  else if KEYWORDS.contains (String.mk w) then ⟨TokenType.KEYWORD, String.mk w⟩
  else if isIdentChars w then ⟨TokenType.IDENTIFIER, String.mk w⟩
  else ⟨TokenType.UNKNOWN, String.mk w⟩

/-- `tokenize(input)`: split preserving quoted parts, then classify each
non-empty part.  (The initial `quoteChar` is irrelevant while `inQuote` is
false; the JavaScript uses the empty string, modelled here by a space.) -/
def tokenize (s : String) : List Token :=
  if s == "" then []
  else ((tokSplit s.data [] false ' ').filter (fun w => !w.isEmpty)).map classifyWord

/-! ## Grammar rules (js/grammar.js) -/

/-- `isKw(token, value)`. -/
def isKw (t : Token) (v : String) : Bool :=
  t.type == TokenType.KEYWORD && t.value == v

/-- `isKw` lifted to a possibly-missing token (`token && isKw(token, v)`). -/
def isKwO (t : Option Token) (v : String) : Bool :=
  match t with
  | some t => isKw t v
  | none => false

/-- `isId(token)`. -/
def isId (t : Token) : Bool := t.type == TokenType.IDENTIFIER

/-- `isValue(token)`: number, string, identifier or boolean. -/
def isValue (t : Token) : Bool :=
  t.type == TokenType.NUMBER || t.type == TokenType.STRING ||
  t.type == TokenType.IDENTIFIER || t.type == TokenType.BOOLEAN

/-- `val(token)`: string tokens get their quotes back, all others pass their
text through. -/
def val (t : Token) : String :=
  if t.type == TokenType.STRING then "\"" ++ t.value ++ "\"" else t.value

/-- A parsed comparison (`{ left, operator, right }`). -/
structure Condition where
  left : String
  operator : String
  right : String
deriving DecidableEq, Repr

/-- Consume the right-hand value of a condition. -/
def finishCond (leftV op : String) : List Token → Option (Condition × List Token)
  | r :: rest => if isValue r then some (⟨leftV, op, val r⟩, rest) else none
  | [] => none

/-- `parseCondition(tokens, startIdx)`, phrased on the token list starting at
`startIdx`; returns the condition together with the unconsumed tokens. -/
def parseCondition : List Token → Option (Condition × List Token)
  | [] => none
  | left :: rest =>
    if !isValue left then none
    else
      match rest with
      | [] => none
      | op1 :: rest1 =>
        if isKw op1 "not" && isKwO rest1.head? "equal_to" then
          finishCond (val left) "not_equal" rest1.tail
        else if isKw op1 "not_equal" then
          finishCond (val left) "not_equal"
            (if isKwO rest1.head? "to" then rest1.tail else rest1)
        else if isKw op1 "greater" then
          finishCond (val left) "greater"
            (if isKwO rest1.head? "than" then rest1.tail else rest1)
        else if isKw op1 "less" then
          finishCond (val left) "less"
            (if isKwO rest1.head? "than" then rest1.tail else rest1)
        else if isKw op1 "equal_to" then
          finishCond (val left) "equal" rest1
        else none

/-- The result of one grammar-rule match, before the parser re-parses the
captured body spans (`bodyTokens` / `thenTokens` / `elseTokens`). -/
inductive Raw where
  | rcomment (text : String)
  | rlist_creation (name : String) (values : List String)
  | rappend (listName : String) (value : String)
  | rfunction_def (name : String) (params : List String) (bodyTokens : List Token)
  | rfunction_call (name : String) (args : List String)
  | rreturn (value : Option String)
  | rfor_loop (varName fromV toV : String) (stepV : Option String)
      (bodyTokens : List Token)
  | rwhile_loop (cond : Condition) (bodyTokens : List Token)
  | rif_statement (cond : Condition) (thenTokens elseTokens : List Token)
  | rarithmetic (operator left right : String) (result : Option String)
  | rincrement (varName amount : String)
  | rdecrement (varName amount : String)
  | rinput (varName : String)
  | rvariable_creation (name : String) (value : Option String)
  | rassignment (name value : String)
  | rprint (values : List String)
deriving DecidableEq, Repr

/-- comment rule: `comment <text...>`. -/
def matchComment (ts : List Token) : Option Raw :=
  match ts with
  | t0 :: rest =>
    if 2 ≤ ts.length && isKw t0 "comment" then
      some (Raw.rcomment (String.intercalate " " (rest.map Token.value)))
    else none
  | [] => none

/-- list-creation rule: `create list <name> [value] <v>*`. -/
def matchListCreation (ts : List Token) : Option Raw :=
  match ts with
  | t0 :: t1 :: t2 :: rest3 =>
    if 4 ≤ ts.length && isKw t0 "create" && isKw t1 "list" then
      if !isId t2 then none
      else
        let rest := if isKwO rest3.head? "value" then rest3.tail else rest3
        some (Raw.rlist_creation t2.value ((rest.filter isValue).map val))
    else none
  | _ => none

/-- Scan for the first `to` keyword followed by another token; return that
following token. -/
def findAfterTo : List Token → Option Token
  | t :: u :: rest => if isKw t "to" then some u else findAfterTo (u :: rest)
  | _ => none

/-- append rule: `append <value> to <list>`. -/
def matchAppend (ts : List Token) : Option Raw :=
  match ts with
  | t0 :: t1 :: rest2 =>
    if 4 ≤ ts.length && isKw t0 "append" then
      if !isValue t1 then none
      else
        match findAfterTo rest2 with
        | some listTok =>
          if isId listTok then some (Raw.rappend listTok.value (val t1)) else none
        | none => none
    else none
  | _ => none

/-- Collect parameter identifiers until a non-identifier token. -/
def paramScan : List Token → List String → (List String × List Token)
  | t :: rest, acc =>
    if isId t && !isKw t "do" then paramScan rest (acc ++ [t.value])
    else (acc, t :: rest)
  | [], acc => (acc, [])

/-- function-definition rule:
`define function <name> [parameter(s) <p>*] [do] <body...>`. -/
def matchFunctionDef (ts : List Token) : Option Raw :=
  match ts with
  | t0 :: t1 :: t2 :: rest3 =>
    if 4 ≤ ts.length && isKw t0 "define" && isKw t1 "function" then
      if !isId t2 then none
      else
        let pr :=
          if isKwO rest3.head? "parameter" || isKwO rest3.head? "parameters" then
            paramScan rest3.tail []
          else ([], rest3)
        let body := if isKwO pr.2.head? "do" then pr.2.tail else pr.2
        some (Raw.rfunction_def t2.value pr.1 body)
    else none
  | _ => none

/-- function-call rule: `call <name> [value] <arg>*`. -/
def matchFunctionCall (ts : List Token) : Option Raw :=
  match ts with
  | t0 :: t1 :: rest2 =>
    if isKw t0 "call" then
      if !isId t1 then none
      else
        let rest := if isKwO rest2.head? "value" then rest2.tail else rest2
        some (Raw.rfunction_call t1.value ((rest.filter isValue).map val))
    else none
  | _ => none

/-- return rule: `return [<value>]`. -/
def matchReturn (ts : List Token) : Option Raw :=
  match ts with
  | t0 :: rest =>
    if isKw t0 "return" then
      match rest with
      | t1 :: _ =>
        if isValue t1 then some (Raw.rreturn (some (val t1)))
        else some (Raw.rreturn none)
      | [] => some (Raw.rreturn none)
    else none
  | [] => none

/-- The scanning loop of the for-loop rule: each of `from`/`to`/`by` grabs
the immediately following token's text (later occurrences overwrite earlier
ones), `do` ends the scan marking the body start. -/
def forScan : List Token → Option String → Option String → Option String →
    (Option String × Option String × Option String × Option (List Token))
  | [], f, t, s => (f, t, s, none)
  | [tok], f, t, s => if isKw tok "do" then (f, t, s, some []) else (f, t, s, none)
  | tok :: next :: rest2, f, t, s =>
    if isKw tok "from" then forScan rest2 (some (val next)) t s
    else if isKw tok "to" then forScan rest2 f (some (val next)) s
    else if isKw tok "by" then forScan rest2 f t (some (val next))
    else if isKw tok "do" then (f, t, s, some (next :: rest2))
    else forScan (next :: rest2) f t s

/-- for-loop rule: `for <var> from <start> to <end> [by <step>] do <body...>`;
missing `from` or `to` is a match failure, a missing `do` leaves an empty
body span. -/
def matchForLoop (ts : List Token) : Option Raw :=
  match ts with
  | t0 :: t1 :: rest2 =>
    if 6 ≤ ts.length && isKw t0 "for" then
      if !isId t1 then none
      else
        match forScan rest2 none none none with
        | (some fv, some tv, sv, body) =>
          some (Raw.rfor_loop t1.value fv tv sv (body.getD []))
        | _ => none
    else none
  | _ => none

/-- while-loop rule: `while <condition> [do] <body...>`. -/
def matchWhile (ts : List Token) : Option Raw :=
  match ts with
  | t0 :: rest =>
    if 5 ≤ ts.length && isKw t0 "while" then
      match parseCondition rest with
      | some (cond, after) =>
        some (Raw.rwhile_loop cond
          (if isKwO after.head? "do" then after.tail else after))
      | none => none
    else none
  | [] => none

/-- Split at the first `else` keyword; without one the else-span is empty. -/
def splitAtElse : List Token → (List Token × List Token)
  | [] => ([], [])
  | t :: rest =>
    if isKw t "else" then ([], rest)
    else
      let p := splitAtElse rest
      (t :: p.1, p.2)

/-- if rule: `if <condition> [then] <body...> [else <body...>]`. -/
def matchIf (ts : List Token) : Option Raw :=
  match ts with
  | t0 :: rest =>
    if 4 ≤ ts.length && isKw t0 "if" then
      match parseCondition rest with
      | some (cond, after) =>
        let after2 := if isKwO after.head? "then" then after.tail else after
        let p := splitAtElse after2
        some (Raw.rif_statement cond p.1 p.2)
      | none => none
    else none
  | [] => none

/-- The five arithmetic operator keywords. -/
def ARITH_KEYS : List String := ["add", "subtract", "multiply", "divide", "modulus"]

/-- First identifier token's text in a list (the result-variable scan; the
source also skips `in` keywords explicitly, which are not identifiers
anyway). -/
def firstId : List Token → Option String
  | [] => none
  | t :: rest => if isId t then some t.value else firstId rest

/-- The scanning loop of the arithmetic rule: `and <value>` (re)binds the
second operand, a bare value binds it once, and `store`/`in` switches to
scanning for the result identifier and stops. -/
def arithScan : List Token → Option String → (Option String × Option String)
  | [], b => (b, none)
  | [tok], b =>
    if b.isNone && isValue tok && !isKw tok "store" && !isKw tok "in" then
      (some (val tok), none)
    else if isKw tok "store" || isKw tok "in" then (b, none)
    else (b, none)
  | tok :: nx :: rest2, b =>
    if isKw tok "and" && isValue nx then arithScan rest2 (some (val nx))
    else if b.isNone && isValue tok && !isKw tok "store" && !isKw tok "in" then
      arithScan (nx :: rest2) (some (val tok))
    else if isKw tok "store" || isKw tok "in" then (b, firstId (nx :: rest2))
    else arithScan (nx :: rest2) b

/-- arithmetic rule:
`<add|subtract|multiply|divide|modulus> <a> [and] <b> [store|in <result>]`. -/
def matchArithmetic (ts : List Token) : Option Raw :=
  match ts with
  | t0 :: t1 :: rest2 =>
    if 4 ≤ ts.length && t0.type == TokenType.KEYWORD &&
        ARITH_KEYS.contains t0.value then
      let a := if isValue t1 then some (val t1) else none
      match a, arithScan rest2 none with
      | some av, (some bv, res) => some (Raw.rarithmetic t0.value av bv res)
      | _, _ => none
    else none
  | _ => none

/-- increment rule: `increment <var> [by <val>]`. -/
def matchIncrement (ts : List Token) : Option Raw :=
  match ts with
  | t0 :: t1 :: t2 :: t3 :: _ =>
    if isKw t0 "increment" then
      if !isId t1 then none
      else some (Raw.rincrement t1.value
        (if isKw t2 "by" && isValue t3 then val t3 else "1"))
    else none
  | t0 :: t1 :: _ =>
    if isKw t0 "increment" then
      if !isId t1 then none else some (Raw.rincrement t1.value "1")
    else none
  | _ => none

/-- decrement rule: `decrement <var> [by <val>]`. -/
def matchDecrement (ts : List Token) : Option Raw :=
  match ts with
  | t0 :: t1 :: t2 :: t3 :: _ =>
    if isKw t0 "decrement" then
      if !isId t1 then none
      else some (Raw.rdecrement t1.value
        (if isKw t2 "by" && isValue t3 then val t3 else "1"))
    else none
  | t0 :: t1 :: _ =>
    if isKw t0 "decrement" then
      if !isId t1 then none else some (Raw.rdecrement t1.value "1")
    else none
  | _ => none

/-- input rule: `input <var>`. -/
def matchInput (ts : List Token) : Option Raw :=
  match ts with
  | t0 :: t1 :: _ =>
    if isKw t0 "input" then
      if isId t1 then some (Raw.rinput t1.value) else none
    else none
  | _ => none

/-- variable-creation rule: `create [variable] <name> [value] [<value>]`;
a missing value produces a null-valued node. -/
def matchVariableCreation (ts : List Token) : Option Raw :=
  match ts with
  | t0 :: rest =>
    if 3 ≤ ts.length && isKw t0 "create" then
      match (if isKwO rest.head? "variable" then rest.tail else rest) with
      | nameTok :: rest2 =>
        if !isId nameTok then none
        else
          let rest3 := if isKwO rest2.head? "value" then rest2.tail else rest2
          match rest3.head? with
          | some v =>
            if isValue v then
              some (Raw.rvariable_creation nameTok.value (some (val v)))
            else some (Raw.rvariable_creation nameTok.value none)
          | none => some (Raw.rvariable_creation nameTok.value none)
      | [] => none
    else none
  | [] => none

/-- assignment rule: `set <var> [to|value] <value>`; the value is mandatory. -/
def matchAssignment (ts : List Token) : Option Raw :=
  match ts with
  | t0 :: t1 :: rest2 =>
    if 3 ≤ ts.length && isKw t0 "set" then
      if !isId t1 then none
      else
        match (if isKwO rest2.head? "to" || isKwO rest2.head? "value"
               then rest2.tail else rest2).head? with
        | some v => if isValue v then some (Raw.rassignment t1.value (val v)) else none
        | none => none
    else none
  | _ => none

/-- print rule: `print <value>+`. -/
def matchPrint (ts : List Token) : Option Raw :=
  match ts with
  | t0 :: rest =>
    if 2 ≤ ts.length && isKw t0 "print" then
      let values := (rest.filter isValue).map val
      if values.isEmpty then none else some (Raw.rprint values)
    else none
  | [] => none

/-- `GRAMMAR_RULES`, tried in source order (most specific first): the first
matcher to succeed wins. -/
def firstSome (ts : List Token) : List (List Token → Option Raw) → Option Raw
  | [] => none
  | m :: ms =>
    match m ts with
    | some r => some r
    | none => firstSome ts ms

/-- The ordered rule list (`GRAMMAR_RULES`), most specific first. -/
def GRAMMAR_RULES : List (List Token → Option Raw) :=
  [matchComment, matchListCreation, matchAppend, matchFunctionDef,
   matchFunctionCall, matchReturn, matchForLoop, matchWhile, matchIf,
   matchArithmetic, matchIncrement, matchDecrement, matchInput,
   matchVariableCreation, matchAssignment, matchPrint]

/-- Try the grammar rules in priority order; the first success wins. -/
def matchRules (ts : List Token) : Option Raw :=
  firstSome ts GRAMMAR_RULES

/-! ## Parser (js/parser.js) -/

/-- An AST node: the result of a grammar-rule match after the captured body
spans have been recursively parsed (`body` / `thenBody` / `elseBody`; a span
that is empty or fails to parse becomes an absent body). -/
inductive Node where
  | comment (text : String)
  | list_creation (name : String) (values : List String)
  | append (listName : String) (value : String)
  | function_def (name : String) (params : List String) (body : Option Node)
  | function_call (name : String) (args : List String)
  | ret (value : Option String)
  | for_loop (varName fromV toV : String) (stepV : Option String) (body : Option Node)
  | while_loop (cond : Condition) (body : Option Node)
  | if_statement (cond : Condition) (thenBody elseBody : Option Node)
  | arithmetic (operator left right : String) (result : Option String)
  | increment (varName amount : String)
  | decrement (varName amount : String)
  | input (varName : String)
  | variable_creation (name : String) (value : Option String)
  | assignment (name value : String)
  | print (values : List String)
deriving Repr

/-- The result of `parse`: `{ success: true, node }` or
`{ success: false, error }`. -/
inductive ParseResult where
  | ok (node : Node)
  | err (error : String)
deriving Repr

/-- The unrecognized-command error message. -/
def unrecognizedMsg (ts : List Token) : String :=
  "Unrecognized command: \"" ++ String.intercalate " " (ts.map Token.value) ++
  "\".\nTry patterns like: \"create variable x value 10\", \"print x\", \"if x greater than 5 then print x\""

/-- A successfully parsed body becomes the child node; a failed body parse is
silently dropped. -/
def toBody : ParseResult → Option Node
  | ParseResult.ok n => some n
  | ParseResult.err _ => none

/-- `parse(tokens)` with explicit recursion fuel.  Each recursive call is on
a captured body span, which is strictly shorter than its caller's token list
(`matchRules_spans_shorter`), so `tokens.length` fuel always suffices
(`parseF_fuel_irrelevant`); the fuel-exhausted branch is unreachable from
`parse`. -/
def parseF : Nat → List Token → ParseResult
  | 0, _ => ParseResult.err "Empty input"
  | fuel + 1, ts =>
    if ts.isEmpty then ParseResult.err "Empty input"
    else
      match matchRules ts with
      | some (Raw.rcomment text) => ParseResult.ok (Node.comment text)
      | some (Raw.rlist_creation n vs) => ParseResult.ok (Node.list_creation n vs)
      | some (Raw.rappend l v) => ParseResult.ok (Node.append l v)
      | some (Raw.rfunction_def n ps bts) =>
        ParseResult.ok (Node.function_def n ps
          (if bts.isEmpty then none else toBody (parseF fuel bts)))
      | some (Raw.rfunction_call n args) => ParseResult.ok (Node.function_call n args)
      | some (Raw.rreturn v) => ParseResult.ok (Node.ret v)
      | some (Raw.rfor_loop v f t s bts) =>
        ParseResult.ok (Node.for_loop v f t s
          (if bts.isEmpty then none else toBody (parseF fuel bts)))
      | some (Raw.rwhile_loop c bts) =>
        ParseResult.ok (Node.while_loop c
          (if bts.isEmpty then none else toBody (parseF fuel bts)))
      | some (Raw.rif_statement c tts ets) =>
        ParseResult.ok (Node.if_statement c
          (if tts.isEmpty then none else toBody (parseF fuel tts))
          (if ets.isEmpty then none else toBody (parseF fuel ets)))
      | some (Raw.rarithmetic op a b res) => ParseResult.ok (Node.arithmetic op a b res)
      | some (Raw.rincrement v amt) => ParseResult.ok (Node.increment v amt)
      | some (Raw.rdecrement v amt) => ParseResult.ok (Node.decrement v amt)
      | some (Raw.rinput v) => ParseResult.ok (Node.input v)
      | some (Raw.rvariable_creation n v) => ParseResult.ok (Node.variable_creation n v)
      | some (Raw.rassignment n v) => ParseResult.ok (Node.assignment n v)
      | some (Raw.rprint vs) => ParseResult.ok (Node.print vs)
      | none => ParseResult.err (unrecognizedMsg ts)

/-- `parse(tokens)`. -/
def parse (ts : List Token) : ParseResult := parseF ts.length ts

/-! ## Code generator (js/generator.js) -/

/-- Target languages. -/
inductive Lang where
  | python
  | java
  | cpp
deriving DecidableEq, Repr

/-- `COMPARISON_OPS[op][lang]`; the table has exactly the four comparison
keys, each mapping every language to the same symbol. -/
def COMPARISON_OPS (op : String) (_lang : Lang) : String :=
  if op == "greater" then ">"
  else if op == "less" then "<"
  else if op == "equal" then "=="
  else if op == "not_equal" then "!="
  else ""

/-- `ARITHMETIC_OPS[op][lang]`; exactly the five arithmetic keys. -/
def ARITHMETIC_OPS (op : String) (_lang : Lang) : String :=
  if op == "add" then "+"
  else if op == "subtract" then "-"
  else if op == "multiply" then "*"
  else if op == "divide" then "/"
  else if op == "modulus" then "%"
  else ""

/-- `indent(code, level, lang)`: prefix each non-blank line with `level`
four-space units (the unit is the same for every language). -/
def indent (code : String) (level : Nat) (lang : Lang) : String :=
  let unit := if lang == Lang.python then "    " else "    "
  let pref := String.join (List.replicate level unit)
  String.intercalate "\n" ((splitNlL code.data).map
    (fun line => if (trimJS line).isEmpty then String.mk line
                 else pref ++ String.mk line))

/-- The regex `^\d+\.\d+$`. -/
def isDecimalChars (l : List Char) : Bool :=
  let ip := l.takeWhile Char.isDigit
  let rest := l.drop ip.length
  !ip.isEmpty && rest.head? == some '.' && !rest.tail.isEmpty &&
    rest.tail.all Char.isDigit

/-- The regex `^\d+$`. -/
def isIntChars (l : List Char) : Bool :=
  !l.isEmpty && l.all Char.isDigit

/-- `inferType(val)`: `null`/`undefined` gives `int`; then boolean literals,
double-quoted strings, unsigned decimals, unsigned integers; anything else
gives `auto`. -/
def inferType (v : Option String) : String :=
  match v with
  | none => "int"
  | some v =>
    if v == "true" || v == "false" then "bool"
    else if isQuotedBy dq v.data then "string"
    else if isDecimalChars v.data then "double"
    else if isIntChars v.data then "int"
    else "auto"

/-- `javaType(val)`. -/
def javaType (v : Option String) : String :=
  let t := inferType v
  if t == "int" then "int"
  else if t == "double" then "double"
  else if t == "string" then "String"
  else if t == "bool" then "boolean"
  else "var"

/-- `cppType(val)`. -/
def cppType (v : Option String) : String :=
  let t := inferType v
  if t == "int" then "int"
  else if t == "double" then "double"
  else if t == "string" then "std::string"
  else if t == "bool" then "bool"
  else "auto"

/-- `formatValue(val, lang)`: absent values render as `None`/`0`/`0`,
boolean literals per language, everything else passes through. -/
def formatValue (v : Option String) (lang : Lang) : String :=
  match v with
  | none => if lang == Lang.python then "None" else if lang == Lang.java then "0" else "0"
  | some v =>
    if v == "true" then (if lang == Lang.python then "True" else "true")
    else if v == "false" then (if lang == Lang.python then "False" else "false")
    else v

/-- `generate(node, lang)`: the per-node-type rendering templates.  (The
source's guards for a missing node or an unregistered node type are
unreachable over the closed `Node` type.) -/
def generate : Node → Lang → String
  | Node.variable_creation name value, lang =>
    let v := formatValue value lang
    match lang with
    | Lang.python => name ++ " = " ++ v
    | Lang.java => javaType value ++ " " ++ name ++ " = " ++ v ++ ";"
    | Lang.cpp => cppType value ++ " " ++ name ++ " = " ++ v ++ ";"
  | Node.assignment name value, lang =>
    let v := formatValue (some value) lang
    match lang with
    | Lang.python => name ++ " = " ++ v
    | Lang.java => name ++ " = " ++ v ++ ";"
    | Lang.cpp => name ++ " = " ++ v ++ ";"
  | Node.print values, lang =>
    let vals := values.map (fun v => formatValue (some v) lang)
    match lang with
    | Lang.python => "print(" ++ String.intercalate ", " vals ++ ")"
    | Lang.java => "System.out.println(" ++ String.intercalate " + " vals ++ ");"
    | Lang.cpp =>
      "std::cout << " ++ String.intercalate (" << \" \" << ") vals ++ " << std::endl;"
  | Node.input varName, lang =>
    match lang with
    | Lang.python => varName ++ " = input()"
    | Lang.java => varName ++ " = scanner.nextLine();"
    | Lang.cpp => "std::cin >> " ++ varName ++ ";"
  | Node.arithmetic op left right result, lang =>
    let o := ARITHMETIC_OPS op lang
    let expr := left ++ " " ++ o ++ " " ++ right
    match result with
    | some r =>
      (match lang with
       | Lang.python => r ++ " = " ++ expr
       | Lang.java => r ++ " = " ++ expr ++ ";"
       | Lang.cpp => r ++ " = " ++ expr ++ ";")
    | none => expr
  | Node.increment varName amount, lang =>
    if amount == "1" then
      match lang with
      | Lang.python => varName ++ " += 1"
      | Lang.java => varName ++ "++;"
      | Lang.cpp => varName ++ "++;"
    else
      match lang with
      | Lang.python => varName ++ " += " ++ amount
      | Lang.java => varName ++ " += " ++ amount ++ ";"
      | Lang.cpp => varName ++ " += " ++ amount ++ ";"
  | Node.decrement varName amount, lang =>
    if amount == "1" then
      match lang with
      | Lang.python => varName ++ " -= 1"
      | Lang.java => varName ++ "--;"
      | Lang.cpp => varName ++ "--;"
    else
      match lang with
      | Lang.python => varName ++ " -= " ++ amount
      | Lang.java => varName ++ " -= " ++ amount ++ ";"
      | Lang.cpp => varName ++ " -= " ++ amount ++ ";"
  | Node.if_statement cond thenB elseB, lang =>
    let op := COMPARISON_OPS cond.operator lang
    let condS := cond.left ++ " " ++ op ++ " " ++ cond.right
    let thenCode := match thenB with
      | some b => generate b lang
      | none => "pass"
    let elseCode : Option String := match elseB with
      | some b => some (generate b lang)
      | none => none
    match lang with
    | Lang.python =>
      "if " ++ condS ++ ":\n" ++ indent thenCode 1 lang ++
        (match elseCode with
         | some e => "\nelse:\n" ++ indent e 1 lang
         | none => "")
    | Lang.java =>
      "if (" ++ condS ++ ") \x7b\n" ++ indent thenCode 1 lang ++ "\n\x7d" ++
        (match elseCode with
         | some e => " else \x7b\n" ++ indent e 1 lang ++ "\n\x7d"
         | none => "")
    | Lang.cpp =>
      "if (" ++ condS ++ ") \x7b\n" ++ indent thenCode 1 lang ++ "\n\x7d" ++
        (match elseCode with
         | some e => " else \x7b\n" ++ indent e 1 lang ++ "\n\x7d"
         | none => "")
  | Node.while_loop cond body, lang =>
    let op := COMPARISON_OPS cond.operator lang
    let condS := cond.left ++ " " ++ op ++ " " ++ cond.right
    let bodyCode := match body with
      | some b => generate b lang
      | none => "pass"
    match lang with
    | Lang.python => "while " ++ condS ++ ":\n" ++ indent bodyCode 1 lang
    | Lang.java => "while (" ++ condS ++ ") \x7b\n" ++ indent bodyCode 1 lang ++ "\n\x7d"
    | Lang.cpp => "while (" ++ condS ++ ") \x7b\n" ++ indent bodyCode 1 lang ++ "\n\x7d"
  | Node.for_loop varName fromV toV stepV body, lang =>
    let bodyCode := match body with
      | some b => generate b lang
      | none => "pass"
    let step := stepV.getD "1"
    match lang with
    | Lang.python =>
      let rangeArgs := if step == "1" then fromV ++ ", " ++ toV
        else fromV ++ ", " ++ toV ++ ", " ++ step
      "for " ++ varName ++ " in range(" ++ rangeArgs ++ "):\n" ++
        indent bodyCode 1 lang
    | Lang.java =>
      "for (int " ++ varName ++ " = " ++ fromV ++ "; " ++ varName ++ " < " ++
        toV ++ "; " ++ varName ++ " += " ++ step ++ ") \x7b\n" ++
        indent bodyCode 1 lang ++ "\n\x7d"
    | Lang.cpp =>
      "for (int " ++ varName ++ " = " ++ fromV ++ "; " ++ varName ++ " < " ++
        toV ++ "; " ++ varName ++ " += " ++ step ++ ") \x7b\n" ++
        indent bodyCode 1 lang ++ "\n\x7d"
  | Node.function_def name params body, lang =>
    let bodyCode := match body with
      | some b => generate b lang
      | none => if lang == Lang.python then "pass" else ""
    match lang with
    | Lang.python =>
      "def " ++ name ++ "(" ++ String.intercalate ", " params ++ "):\n" ++
        indent bodyCode 1 lang
    | Lang.java =>
      "public static void " ++ name ++ "(" ++
        String.intercalate ", " (params.map (fun p => "Object " ++ p)) ++
        ") \x7b\n" ++ indent bodyCode 1 lang ++ "\n\x7d"
    | Lang.cpp =>
      "void " ++ name ++ "(" ++
        String.intercalate ", " (params.map (fun p => "auto " ++ p)) ++
        ") \x7b\n" ++ indent bodyCode 1 lang ++ "\n\x7d"
  | Node.function_call name args, lang =>
    let a := String.intercalate ", " args
    match lang with
    | Lang.python => name ++ "(" ++ a ++ ")"
    | Lang.java => name ++ "(" ++ a ++ ");"
    | Lang.cpp => name ++ "(" ++ a ++ ");"
  | Node.ret value, lang =>
    match value with
    | some x =>
      let v := formatValue (some x) lang
      (match lang with
       | Lang.python => "return " ++ v
       | Lang.java => "return " ++ v ++ ";"
       | Lang.cpp => "return " ++ v ++ ";")
    | none =>
      (match lang with
       | Lang.python => "return"
       | Lang.java => "return;"
       | Lang.cpp => "return;")
  | Node.list_creation name values, lang =>
    let vals := String.intercalate ", " values
    match lang with
    | Lang.python => name ++ " = [" ++ vals ++ "]"
    | Lang.java =>
      "ArrayList<Object> " ++ name ++ " = new ArrayList<>(Arrays.asList(" ++
        vals ++ "));"
    | Lang.cpp => "std::vector<auto> " ++ name ++ " = \x7b" ++ vals ++ "\x7d;"
  | Node.append listName value, lang =>
    match lang with
    | Lang.python => listName ++ ".append(" ++ value ++ ")"
    | Lang.java => listName ++ ".add(" ++ value ++ ");"
    | Lang.cpp => listName ++ ".push_back(" ++ value ++ ");"
  | Node.comment text, lang =>
    match lang with
    | Lang.python => "# " ++ text
    | Lang.java => "// " ++ text
    | Lang.cpp => "// " ++ text

/-- The body rendering shared by the if/while/for generators
(`node.body ? generate(node.body, lang) : "pass"`). -/
def compoundBodyCode (body : Option Node) (lang : Lang) : String :=
  match body with
  | some b => generate b lang
  | none => "pass"

/-- The body rendering of the function-definition generator
(`node.body ? generate(node.body, lang) : (lang === "python" ? "pass" : "")`). -/
def functionDefBodyCode (body : Option Node) (lang : Lang) : String :=
  match body with
  | some b => generate b lang
  | none => if lang == Lang.python then "pass" else ""

/-- The `type` tag string of a node (the JavaScript `node.type` field). -/
def nodeType : Node → String
  | Node.comment _ => "comment"
  | Node.list_creation _ _ => "list_creation"
  | Node.append _ _ => "append"
  | Node.function_def _ _ _ => "function_def"
  | Node.function_call _ _ => "function_call"
  | Node.ret _ => "return"
  | Node.for_loop _ _ _ _ _ => "for_loop"
  | Node.while_loop _ _ => "while_loop"
  | Node.if_statement _ _ _ => "if_statement"
  | Node.arithmetic _ _ _ _ => "arithmetic"
  | Node.increment _ _ => "increment"
  | Node.decrement _ _ => "decrement"
  | Node.input _ => "input"
  | Node.variable_creation _ _ => "variable_creation"
  | Node.assignment _ _ => "assignment"
  | Node.print _ => "print"

/-- `generateProgram(nodes, lang)`: whole-program generation with
language-specific wrapping.  (In the C++ branch the source also computes a
`needsIO` flag from print/input nodes that it never uses; the
`#include <iostream>` line is emitted unconditionally.) -/
def generateProgram (nodes : List Node) (lang : Lang) : String :=
  if nodes.isEmpty then ""
  else
    let lines := nodes.map (fun n => generate n lang)
    match lang with
    | Lang.java =>
      let needsScanner := nodes.any (fun n => nodeType n == "input")
      let needsArrays := nodes.any (fun n => nodeType n == "list_creation")
      let imports :=
        (if needsScanner then "import java.util.Scanner;\n" else "") ++
        (if needsArrays then "import java.util.ArrayList;\nimport java.util.Arrays;\n" else "")
      let funcNodes := nodes.filter (fun n => nodeType n == "function_def")
      let mainNodes := nodes.filter (fun n => nodeType n != "function_def")
      let funcLines := funcNodes.map (fun n => indent (generate n lang) 1 lang)
      let mainLines := mainNodes.map (fun n => indent (generate n lang) 2 lang)
      let scannerInit :=
        if needsScanner then
          indent "Scanner scanner = new Scanner(System.in);" 2 lang ++ "\n"
        else ""
      imports ++ "public class Main \x7b\n" ++
        String.intercalate "\n\n" funcLines ++
        "\n    public static void main(String[] args) \x7b\n" ++ scannerInit ++
        String.intercalate "\n" mainLines ++ "\n    \x7d\n\x7d"
    | Lang.cpp =>
      let needsVector := nodes.any
        (fun n => nodeType n == "list_creation" || nodeType n == "append")
      let includes := "#include <iostream>\n" ++
        (if needsVector then "#include <vector>\n" else "") ++
        "#include <string>\n"
      let funcNodes := nodes.filter (fun n => nodeType n == "function_def")
      let mainNodes := nodes.filter (fun n => nodeType n != "function_def")
      let funcLines := funcNodes.map (fun n => generate n lang)
      let mainLines := mainNodes.map (fun n => indent (generate n lang) 1 lang)
      includes ++ "\n" ++ String.intercalate "\n\n" funcLines ++
        "\nint main() \x7b\n" ++ String.intercalate "\n" mainLines ++
        "\n    return 0;\n\x7d"
    | Lang.python => String.intercalate "\n" lines

/-! ## Orchestration (js/app.js) -/

/-- The result of `translateLine`. -/
inductive TranslateResult where
  | ok (code : String) (ast : Node)
  | err (error : String)
deriving Repr

/-- `translateLine(rawLine, lang)`: preprocess, tokenize, parse, generate. -/
def translateLine (rawLine : String) (lang : Lang) : TranslateResult :=
  let cleaned := preprocess rawLine
  if cleaned == "" then TranslateResult.err "Empty input"
  else
    let tokens := tokenize cleaned
    if tokens.isEmpty then TranslateResult.err "No tokens found"
    else
      match parse tokens with
      | ParseResult.ok node => TranslateResult.ok (generate node lang) node
      | ParseResult.err e => TranslateResult.err e

/-- A per-line error entry (`{ line, error }`, 1-based line numbers). -/
structure LineError where
  line : Nat
  error : String
deriving DecidableEq, Repr

/-- The result of `translateProgram`. -/
structure ProgramResult where
  success : Bool
  code : Option String
  errors : List LineError
  nodes : Option (List Node)
  totalTokens : Option Nat
deriving Repr

/-- The per-line loop of `translateProgram`: tokenize and parse each cleaned
line (0-based index `idx`), collecting nodes, error entries (1-based), and
the total token count, all in input order. -/
def procLines : List String → Nat → (List Node × List LineError × Nat)
  | [], _ => ([], [], 0)
  | line :: rest, idx =>
    let tokens := tokenize line
    let r := procLines rest (idx + 1)
    match parse tokens with
    | ParseResult.ok n => (n :: r.1, r.2.1, tokens.length + r.2.2)
    | ParseResult.err e => (r.1, ⟨idx + 1, e⟩ :: r.2.1, tokens.length + r.2.2)

/-- `translateProgram(rawInput, lang)`. -/
def translateProgram (rawInput : String) (lang : Lang) : ProgramResult :=
  let cleanedLines := preprocessLines rawInput
  if cleanedLines.isEmpty then
    ⟨false, none, [⟨0, "Empty input"⟩], none, none⟩
  else
    let r := procLines cleanedLines 0
    if r.1.isEmpty && !r.2.1.isEmpty then
      ⟨false, none, r.2.1, none, some r.2.2⟩
    else
      ⟨true, some (generateProgram r.1 lang), r.2.1, some r.1, some r.2.2⟩

/-! ## Auxiliary definitions used by the theorems -/

/-- Did a parse succeed? -/
def ParseResult.isOk : ParseResult → Bool
  | ParseResult.ok _ => true
  | ParseResult.err _ => false

/-- Does a node tree contain a function-definition node? -/
def mentionsFunctionDef : Node → Bool
  | Node.function_def _ _ _ => true
  | Node.while_loop _ (some b) => mentionsFunctionDef b
  | Node.while_loop _ none => false
  | Node.for_loop _ _ _ _ (some b) => mentionsFunctionDef b
  | Node.for_loop _ _ _ _ none => false
  | Node.if_statement _ t e =>
    (match t with
     | some b => mentionsFunctionDef b
     | none => false) ||
    (match e with
     | some b => mentionsFunctionDef b
     | none => false)
  | _ => false

/-- Does translating one line produce (anywhere in the returned tree) a
function-definition node? -/
def lineProducesFunctionDef (s : String) (lang : Lang) : Bool :=
  match translateLine s lang with
  | TranslateResult.ok _ ast => mentionsFunctionDef ast
  | TranslateResult.err _ => false

/-- The token spans captured by a rule match for recursive re-parsing. -/
def rawSpans : Raw → List (List Token)
  | Raw.rfunction_def _ _ b => [b]
  | Raw.rfor_loop _ _ _ _ b => [b]
  | Raw.rwhile_loop _ b => [b]
  | Raw.rif_statement _ t e => [t, e]
  | _ => []

/-- The C++ include block as the code actually emits it: `iostream` and
`string` unconditionally, `vector` exactly when a list-creation or append
node is present. -/
def cppIncludesSpec (nodes : List Node) : String :=
  "#include <iostream>\n" ++
  (if nodes.any (fun n => nodeType n == "list_creation" || nodeType n == "append")
   then "#include <vector>\n" else "") ++
  "#include <string>\n"

/-- The Java import block: `Scanner` exactly when an input node is present,
`ArrayList`/`Arrays` exactly when a list-creation node is present. -/
def javaImportsSpec (nodes : List Node) : String :=
  (if nodes.any (fun n => nodeType n == "input")
   then "import java.util.Scanner;\n" else "") ++
  (if nodes.any (fun n => nodeType n == "list_creation")
   then "import java.util.ArrayList;\nimport java.util.Arrays;\n" else "")

/-- A string without quote characters. -/
def quoteFree (s : String) : Bool :=
  s.data.all (fun c => !(c == dq || c == sq))

/-- The words `preprocess` looks up in `SYNONYMS` for a quote-free input:
the maximal word-character runs of the lowercased, punctuation-stripped
text.  The predicate holds when none of them is one of the two lowercase
`Object.prototype` property names that leak through `SYNONYMS[word]`. -/
def protoWordFree (s : String) : Bool :=
  (wsWords ((trimJS (s.data.map Char.toLower)).map
    (fun c => if isWordChar c || isJsSpace c then c else ' '))).all
    (fun w => !(String.mk w == "constructor" || String.mk w == "__proto__"))

/-! ## Theorems for the claims -/

/-- C1.  On `add x and y store in result` the full pipeline yields an
arithmetic node with operator `add`, left `x`, right `y` — but a `null`
result slot, and the Python rendering is the bare expression `x + y` rather
than `result = x + y`.  The word `result` is listed in `KEYWORDS`, so it is
tokenized as a keyword, and the arithmetic rule's result scan accepts only
an identifier token. -/
theorem C1_store_in_result_eval :
    translateLine "add x and y store in result" Lang.python =
      TranslateResult.ok "x + y" (Node.arithmetic "add" "x" "y" none) ∧
    (tokenize (preprocess "add x and y store in result")).map Token.type =
      [TokenType.KEYWORD, TokenType.IDENTIFIER, TokenType.KEYWORD,
       TokenType.IDENTIFIER, TokenType.KEYWORD, TokenType.KEYWORD,
       TokenType.KEYWORD] :=
  ⟨rfl, rfl⟩

/-- C2.  On `print "Hello World"` the string literal is first lowercased and
then never restored: the restore step searches for the lowercase placeholder
`__string_0__` while the text holds the uppercase `__STRING_0__`, so the
pipeline prints the placeholder identifier, not the literal. -/
theorem C2_hello_world_eval :
    preprocess "print \"Hello World\"" = "print __STRING_0__" ∧
    translateLine "print \"Hello World\"" Lang.python =
      TranslateResult.ok "print(__STRING_0__)" (Node.print ["__STRING_0__"]) ∧
    translateLine "print \"Hello World\"" Lang.cpp =
      TranslateResult.ok "std::cout << __STRING_0__ << std::endl;"
        (Node.print ["__STRING_0__"]) :=
  ⟨rfl, rfl, rfl⟩

/-- C3 counterexample.  A function-definition node with an absent body
renders its body as the empty string for the Java target (and the full
rendering shows the braces enclosing empty text), contradicting the claim
that the rendered body text is never the empty string. -/
theorem C3_counterexample :
    functionDefBodyCode none Lang.java = "" ∧
    functionDefBodyCode none Lang.cpp = "" ∧
    generate (Node.function_def ("f") [] none) Lang.java =
      "public static void f() \x7b\n\n\x7d" :=
  ⟨rfl, rfl, rfl⟩

/-- C3 amended.  For if/while/for nodes an absent body renders as the
placeholder `pass` in every target language (non-empty, though not valid
Java/C++); for function-definition nodes it renders as `pass` only for
Python and as the empty string for Java and C++. -/
theorem C3_amended_bodies (lang : Lang) :
    compoundBodyCode none lang = "pass" ∧
    functionDefBodyCode none lang = (if lang == Lang.python then "pass" else "") ∧
    strHas (generate (Node.if_statement ⟨"x", "less", "5"⟩ none none) lang) "pass" = true ∧
    strHas (generate (Node.while_loop ⟨"x", "less", "5"⟩ none) lang) "pass" = true ∧
    strHas (generate (Node.for_loop "i" "1" "5" none none) lang) "pass" = true := by
  cases lang <;> exact ⟨rfl, rfl, rfl, rfl, rfl⟩

/-- C4 counterexample.  In the two-line program `please` / `print x` the
first line normalizes to the empty string, yet it is not dropped: it
produces the error entry `{line: 1, error: "Empty input"}` (while the other
line still parses and the translation succeeds). -/
theorem C4_counterexample :
    preprocessLines "please\nprint x" = ["", "print x"] ∧
    (translateProgram "please\nprint x" Lang.python).errors =
      [⟨1, "Empty input"⟩] ∧
    (translateProgram "please\nprint x" Lang.python).success = true ∧
    (translateProgram "please\nprint x" Lang.python).code = some "print(x)" :=
  ⟨rfl, rfl, rfl, rfl⟩

/-- C5 counterexample.  A program consisting of a single comment node — no
print and no input node — still gets `#include <iostream>` in its C++
output, refuting the claimed "if and only if". -/
theorem C5_counterexample :
    strHas (generateProgram [Node.comment "x"] Lang.cpp) "#include <iostream>" = true ∧
    ([Node.comment "x"].any
      (fun n => nodeType n == "print" || nodeType n == "input")) = false :=
  ⟨rfl, rfl⟩

/-- C6 counterexample.  An absent (null) value is typed `int`, not the
auto/inferred placeholder type claimed (Java `var` / C++ `auto`); the
variable-creation rendering shows it. -/
theorem C6_counterexample :
    javaType none = "int" ∧ cppType none = "int" ∧
    generate (Node.variable_creation "x" none) Lang.java = "int x = 0;" ∧
    generate (Node.variable_creation "x" none) Lang.cpp = "int x = 0;" ∧
    ("int" : String) ≠ "var" ∧ ("int" : String) ≠ "auto" :=
  ⟨rfl, rfl, rfl, rfl, by decide, by decide⟩

/-- C7 counterexample.  Normalization is not idempotent on inputs with
quoted literals: the first pass leaves the (never-restored) uppercase
placeholder `__STRING_0__`, which the second pass lowercases.  It also
fails on the quote-free input `constructor`: `SYNONYMS["constructor"]`
hits the `Object.prototype` chain, so step 7 maps the word to the
stringified `Object` function, which a second pass lowercases and strips
of its punctuation. -/
theorem C7_counterexample :
    preprocess "print \"a\"" = "print __STRING_0__" ∧
    preprocess (preprocess "print \"a\"") = "print __string_0__" ∧
    preprocess (preprocess "print \"a\"") ≠ preprocess "print \"a\"" ∧
    quoteFree "constructor" = true ∧
    preprocess "constructor" = "function Object() \x7b [native code] \x7d" ∧
    preprocess (preprocess "constructor") ≠ preprocess "constructor" :=
  ⟨rfl, rfl, by decide, by decide, rfl, by decide⟩

/-- C9 counterexample.  The pipeline can produce a function-definition AST
node: on this input the quoted literal smuggles a `define function` keyword
sequence into a while-loop body span, and the recursive body parse returns a
function-definition node. -/
theorem C9_counterexample :
    lineProducesFunctionDef
      "while x greater __string_0__ 'q\" do define function f x'"
      Lang.python = true :=
  rfl

/-- C9 amended.  Normalization maps the bare word `define` to `create`, but
the quoted-placeholder restore step can re-introduce `define` as a keyword
token; on the input below the parser returns a while-loop whose body is a
function-definition node (the top-level node is still not a
function-definition). -/
theorem C9_amended_nested_function_def :
    translateLine "while x greater __string_0__ 'q\" do define function f x'"
      Lang.python =
    TranslateResult.ok "while x > \"q\":\n    def f():\n        pass"
      (Node.while_loop ⟨"x", "greater", "\"q\""⟩
        (some (Node.function_def ("f") [] none))) :=
  rfl

/-- Unfolding the left fold of `synLookup`: a `some` result is either a
table entry for `w` or was already the accumulator. -/
theorem foldl_synLookup_mem (l : List (String × String)) (acc : Option String)
    (w v : String)
    (h : l.foldl (fun acc p => if p.1 == w then some p.2 else acc) acc = some v) :
    (w, v) ∈ l ∨ acc = some v := by
  induction l generalizing acc with
  | nil => exact Or.inr h
  | cons p rest ih =>
    rcases ih _ h with hmem | hacc
    · exact Or.inl (List.mem_cons_of_mem _ hmem)
    · have hacc2 : (if (p.1 == w) = true then some p.2 else acc) = some v := hacc
      by_cases hp : (p.1 == w) = true
      · left
        have hv : p.2 = v := by
          rw [if_pos hp] at hacc2
          exact Option.some.inj hacc2
        have hw : p.1 = w := eq_of_beq hp
        have hpw : (w, v) = p := by
          cases p
          simp at hw hv ⊢
          exact ⟨hw.symm, hv.symm⟩
        rw [hpw]
        exact List.mem_cons_self _ _
      · right
        rwa [if_neg hp] at hacc2

/-- A `synLookup` hit is either a table entry or a prototype-chain hit. -/
theorem synLookup_proto_cases (w v : String) (h : synLookup w = some v) :
    (w, v) ∈ SYNONYMS ∨ protoLookup w = some v := by
  unfold synLookup at h
  cases hf : SYNONYMS.foldl (fun acc p => if p.1 == w then some p.2 else acc) none with
  | some u =>
    rw [hf] at h
    have hu : u = v := Option.some.inj h
    subst hu
    rcases foldl_synLookup_mem SYNONYMS none w u hf with hmem | hacc
    · exact Or.inl hmem
    · cases hacc
  | none =>
    rw [hf] at h
    exact Or.inr h

/-- A `synLookup` hit below a word missing from the prototype chain is a
table entry. -/
theorem synLookup_mem (w v : String) (h : synLookup w = some v)
    (hp : protoLookup w = none) : (w, v) ∈ SYNONYMS := by
  rcases synLookup_proto_cases w v h with hmem | hpp
  · exact hmem
  · rw [hp] at hpp
    cases hpp

set_option maxHeartbeats 4000000 in
/-- Every value of the synonym table is stable under a second application
(verified by evaluating the table). -/
theorem synonyms_values_stable :
    (SYNONYMS.all fun p => mapSyn p.2 == p.2) = true := by decide

/-- C8.  The synonym mapping is idempotent: applying the table twice equals
applying it once, and every canonical value in the table either is absent
from the keys or maps to itself. -/
theorem C8_synonyms_idempotent :
    (∀ w : String, mapSyn (mapSyn w) = mapSyn w) ∧
    (∀ p ∈ SYNONYMS, synLookup p.2 = none ∨ synLookup p.2 = some p.2) := by
  have hstable : ∀ p ∈ SYNONYMS, mapSyn p.2 = p.2 := by
    intro p hp
    have := List.all_eq_true.mp synonyms_values_stable p hp
    exact eq_of_beq this
  constructor
  · intro w
    cases h : synLookup w with
    | none =>
      have hmw : mapSyn w = w := by unfold mapSyn; rw [h]; rfl
      rw [hmw, hmw]
    | some v =>
      have hmw : mapSyn w = v := by unfold mapSyn; rw [h]; rfl
      rw [hmw]
      rcases synLookup_proto_cases w v h with hmem | hpp
      · exact hstable _ hmem
      · unfold protoLookup at hpp
        by_cases h1 : (w == "constructor") = true
        · rw [if_pos h1] at hpp
          obtain rfl := Option.some.inj hpp
          decide
        · rw [if_neg h1] at hpp
          by_cases h2 : (w == "__proto__") = true
          · rw [if_pos h2] at hpp
            obtain rfl := Option.some.inj hpp
            decide
          · rw [if_neg h2] at hpp
            cases hpp
  · intro p hp
    have hv := hstable p hp
    cases h : synLookup p.2 with
    | none => exact Or.inl rfl
    | some u =>
      right
      have h2 : mapSyn p.2 = u := by unfold mapSyn; rw [h]; rfl
      rw [h2] at hv
      rw [hv]


theorem forScan_body_len (l : List Token) (f t s : Option String) :
    ∀ b, (forScan l f t s).2.2.2 = some b → b.length ≤ l.length := by
  induction l, f, t, s using forScan.induct <;> intro b h <;>
    simp only [forScan] at h <;> try split at h
  all_goals simp_all
  all_goals try omega



theorem paramScan_snd_len (l : List Token) (acc : List String) :
    (paramScan l acc).2.length ≤ l.length := by
  induction l generalizing acc with
  | nil => simp [paramScan]
  | cons t rest ih =>
    simp only [paramScan]
    split
    · exact le_trans (ih _) (Nat.le_succ _)
    · simp

theorem finishCond_len (a op : String) (l : List Token) (c : Condition)
    (r : List Token) (h : finishCond a op l = some (c, r)) :
    r.length < l.length := by
  cases l with
  | nil => simp [finishCond] at h
  | cons x rest =>
    simp only [finishCond] at h
    split at h
    · simp at h
      rw [← h.2]
      simp
    · simp at h

theorem parseCondition_len (l : List Token) (c : Condition) (r : List Token)
    (h : parseCondition l = some (c, r)) : r.length < l.length := by
  cases l with
  | nil => simp [parseCondition] at h
  | cons left rest =>
    cases rest with
    | nil =>
      simp only [parseCondition] at h
      split at h <;> simp at h
    | cons op1 rest1 =>
      simp only [parseCondition] at h
      have ht : rest1.tail.length <= rest1.length := by cases rest1 <;> simp
      split at h
      · simp at h
      · split at h
        · have := finishCond_len _ _ _ _ _ h
          simp only [List.length_cons]
          omega
        · split at h
          · split at h
            · have := finishCond_len _ _ _ _ _ h
              simp only [List.length_cons]
              omega
            · have := finishCond_len _ _ _ _ _ h
              simp only [List.length_cons]
              omega
          · split at h
            · split at h
              · have := finishCond_len _ _ _ _ _ h
                simp only [List.length_cons]
                omega
              · have := finishCond_len _ _ _ _ _ h
                simp only [List.length_cons]
                omega
            · split at h
              · split at h
                · have := finishCond_len _ _ _ _ _ h
                  simp only [List.length_cons]
                  omega
                · have := finishCond_len _ _ _ _ _ h
                  simp only [List.length_cons]
                  omega
              · split at h
                · have := finishCond_len _ _ _ _ _ h
                  simp only [List.length_cons]
                  omega
                · simp at h

theorem splitAtElse_len (l : List Token) :
    (splitAtElse l).1.length ≤ l.length ∧ (splitAtElse l).2.length ≤ l.length := by
  induction l with
  | nil => simp [splitAtElse]
  | cons t rest ih =>
    simp only [splitAtElse]
    split
    · simp
    · simp only [List.length_cons]
      exact ⟨by omega, by omega⟩



theorem matchComment_spans (ts : List Token) (raw : Raw) (h : matchComment ts = some raw) :
    ∀ sp ∈ rawSpans raw, sp.length < ts.length := by
  unfold matchComment at h
  iterate 8 (all_goals try split at h)
  all_goals try simp at h
  iterate 8 (all_goals try split at h)
  all_goals try simp at h
  all_goals first
    | (obtain rfl := h.2.2; simp [rawSpans])
    | (obtain ⟨_, rfl⟩ := h; simp [rawSpans])
    | (obtain rfl := h; simp [rawSpans])
    | simp [rawSpans]

theorem matchListCreation_spans (ts : List Token) (raw : Raw) (h : matchListCreation ts = some raw) :
    ∀ sp ∈ rawSpans raw, sp.length < ts.length := by
  unfold matchListCreation at h
  iterate 8 (all_goals try split at h)
  all_goals try simp at h
  iterate 8 (all_goals try split at h)
  all_goals try simp at h
  all_goals first
    | (obtain rfl := h.2.2; simp [rawSpans])
    | (obtain ⟨_, rfl⟩ := h; simp [rawSpans])
    | (obtain rfl := h; simp [rawSpans])
    | simp [rawSpans]

theorem matchAppend_spans (ts : List Token) (raw : Raw) (h : matchAppend ts = some raw) :
    ∀ sp ∈ rawSpans raw, sp.length < ts.length := by
  unfold matchAppend at h
  iterate 8 (all_goals try split at h)
  all_goals try simp at h
  iterate 8 (all_goals try split at h)
  all_goals try simp at h
  all_goals first
    | (obtain rfl := h.2.2; simp [rawSpans])
    | (obtain ⟨_, rfl⟩ := h; simp [rawSpans])
    | (obtain rfl := h; simp [rawSpans])
    | simp [rawSpans]

theorem matchFunctionCall_spans (ts : List Token) (raw : Raw) (h : matchFunctionCall ts = some raw) :
    ∀ sp ∈ rawSpans raw, sp.length < ts.length := by
  unfold matchFunctionCall at h
  iterate 8 (all_goals try split at h)
  all_goals try simp at h
  iterate 8 (all_goals try split at h)
  all_goals try simp at h
  all_goals first
    | (obtain rfl := h.2.2; simp [rawSpans])
    | (obtain ⟨_, rfl⟩ := h; simp [rawSpans])
    | (obtain rfl := h; simp [rawSpans])
    | simp [rawSpans]

theorem matchReturn_spans (ts : List Token) (raw : Raw) (h : matchReturn ts = some raw) :
    ∀ sp ∈ rawSpans raw, sp.length < ts.length := by
  unfold matchReturn at h
  iterate 8 (all_goals try split at h)
  all_goals try simp at h
  iterate 8 (all_goals try split at h)
  all_goals try simp at h
  all_goals first
    | (obtain rfl := h.2.2; simp [rawSpans])
    | (obtain ⟨_, rfl⟩ := h; simp [rawSpans])
    | (obtain rfl := h; simp [rawSpans])
    | simp [rawSpans]

theorem matchIncrement_spans (ts : List Token) (raw : Raw) (h : matchIncrement ts = some raw) :
    ∀ sp ∈ rawSpans raw, sp.length < ts.length := by
  unfold matchIncrement at h
  iterate 8 (all_goals try split at h)
  all_goals try simp at h
  iterate 8 (all_goals try split at h)
  all_goals try simp at h
  all_goals first
    | (obtain rfl := h.2.2; simp [rawSpans])
    | (obtain ⟨_, rfl⟩ := h; simp [rawSpans])
    | (obtain rfl := h; simp [rawSpans])
    | simp [rawSpans]

theorem matchDecrement_spans (ts : List Token) (raw : Raw) (h : matchDecrement ts = some raw) :
    ∀ sp ∈ rawSpans raw, sp.length < ts.length := by
  unfold matchDecrement at h
  iterate 8 (all_goals try split at h)
  all_goals try simp at h
  iterate 8 (all_goals try split at h)
  all_goals try simp at h
  all_goals first
    | (obtain rfl := h.2.2; simp [rawSpans])
    | (obtain ⟨_, rfl⟩ := h; simp [rawSpans])
    | (obtain rfl := h; simp [rawSpans])
    | simp [rawSpans]

theorem matchInput_spans (ts : List Token) (raw : Raw) (h : matchInput ts = some raw) :
    ∀ sp ∈ rawSpans raw, sp.length < ts.length := by
  unfold matchInput at h
  iterate 8 (all_goals try split at h)
  all_goals try simp at h
  iterate 8 (all_goals try split at h)
  all_goals try simp at h
  all_goals first
    | (obtain rfl := h.2.2; simp [rawSpans])
    | (obtain ⟨_, rfl⟩ := h; simp [rawSpans])
    | (obtain rfl := h; simp [rawSpans])
    | simp [rawSpans]

theorem matchVariableCreation_spans (ts : List Token) (raw : Raw) (h : matchVariableCreation ts = some raw) :
    ∀ sp ∈ rawSpans raw, sp.length < ts.length := by
  unfold matchVariableCreation at h
  iterate 8 (all_goals try split at h)
  all_goals try simp at h
  iterate 8 (all_goals try split at h)
  all_goals try simp at h
  all_goals first
    | (obtain rfl := h.2.2; simp [rawSpans])
    | (obtain ⟨_, rfl⟩ := h; simp [rawSpans])
    | (obtain rfl := h; simp [rawSpans])
    | simp [rawSpans]

theorem matchAssignment_spans (ts : List Token) (raw : Raw) (h : matchAssignment ts = some raw) :
    ∀ sp ∈ rawSpans raw, sp.length < ts.length := by
  unfold matchAssignment at h
  iterate 8 (all_goals try split at h)
  all_goals try simp at h
  iterate 8 (all_goals try split at h)
  all_goals try simp at h
  all_goals first
    | (obtain rfl := h.2.2; simp [rawSpans])
    | (obtain ⟨_, rfl⟩ := h; simp [rawSpans])
    | (obtain rfl := h; simp [rawSpans])
    | simp [rawSpans]

theorem matchPrint_spans (ts : List Token) (raw : Raw) (h : matchPrint ts = some raw) :
    ∀ sp ∈ rawSpans raw, sp.length < ts.length := by
  unfold matchPrint at h
  iterate 8 (all_goals try split at h)
  all_goals try simp at h
  iterate 8 (all_goals try split at h)
  all_goals try simp at h
  all_goals first
    | (obtain rfl := h.2.2; simp [rawSpans])
    | (obtain ⟨_, rfl⟩ := h; simp [rawSpans])
    | (obtain rfl := h; simp [rawSpans])
    | simp [rawSpans]

theorem matchArithmetic_spans (ts : List Token) (raw : Raw) (h : matchArithmetic ts = some raw) :
    ∀ sp ∈ rawSpans raw, sp.length < ts.length := by
  unfold matchArithmetic at h
  iterate 8 (all_goals try split at h)
  all_goals try simp at h
  iterate 8 (all_goals try split at h)
  all_goals try simp at h
  all_goals first
    | (obtain rfl := h.2.2; simp [rawSpans])
    | (obtain ⟨_, rfl⟩ := h; simp [rawSpans])
    | (obtain rfl := h; simp [rawSpans])
    | simp [rawSpans]



theorem tail_len_le (l : List Token) : l.tail.length ≤ l.length := by
  cases l <;> simp

theorem funcDefBody_len_params (r : List Token) :
    (if isKwO (paramScan r.tail []).2.head? "do" = true
     then (paramScan r.tail []).2.tail
     else (paramScan r.tail []).2).length < r.length + 1 + 1 + 1 := by
  have h1 := paramScan_snd_len r.tail []
  have h2 := tail_len_le r
  have h3 := tail_len_le (paramScan r.tail []).2
  split <;> omega

theorem funcDefBody_len_noparams (r : List Token) :
    (if isKwO r.head? "do" = true then r.tail else r).length < r.length + 1 + 1 + 1 := by
  have h2 := tail_len_le r
  split <;> omega

theorem matchFunctionDef_spans (ts : List Token) (raw : Raw) (h : matchFunctionDef ts = some raw) :
    ∀ sp ∈ rawSpans raw, sp.length < ts.length := by
  unfold matchFunctionDef at h
  iterate 6 (all_goals try split at h)
  all_goals try simp at h
  all_goals try (obtain rfl := h)
  all_goals simp [rawSpans]
  all_goals first
    | exact funcDefBody_len_params _
    | exact funcDefBody_len_noparams _



theorem matchForLoop_spans (ts : List Token) (raw : Raw) (h : matchForLoop ts = some raw) :
    ∀ sp ∈ rawSpans raw, sp.length < ts.length := by
  cases ts with
  | nil => simp [matchForLoop] at h
  | cons t0 ts1 =>
    cases ts1 with
    | nil => simp [matchForLoop] at h
    | cons t1 rest2 =>
      simp only [matchForLoop] at h
      split at h
      · split at h
        · simp at h
        · rcases hq : forScan rest2 none none none with ⟨f, t, s, body⟩
          rw [hq] at h
          rcases f with _ | fv
          · simp at h
          · rcases t with _ | tv
            · simp at h
            · simp at h
              obtain rfl := h
              intro sp hsp
              simp [rawSpans] at hsp
              subst hsp
              cases body with
              | none => simp
              | some b =>
                have hb := forScan_body_len rest2 none none none b (by rw [hq])
                simp only [Option.getD_some, List.length_cons]
                omega
      · simp at h

theorem matchWhile_spans (ts : List Token) (raw : Raw) (h : matchWhile ts = some raw) :
    ∀ sp ∈ rawSpans raw, sp.length < ts.length := by
  cases ts with
  | nil => simp [matchWhile] at h
  | cons t0 rest =>
    simp only [matchWhile] at h
    split at h
    · rcases hq : parseCondition rest with _ | ⟨cond, after⟩
      · rw [hq] at h; simp at h
      · rw [hq] at h
        simp at h
        obtain rfl := h
        have hlen := parseCondition_len rest cond after hq
        have ht := tail_len_le after
        intro sp hsp
        simp [rawSpans] at hsp
        subst hsp
        split <;> (simp only [List.length_cons]; omega)
    · simp at h

theorem matchIf_spans (ts : List Token) (raw : Raw) (h : matchIf ts = some raw) :
    ∀ sp ∈ rawSpans raw, sp.length < ts.length := by
  cases ts with
  | nil => simp [matchIf] at h
  | cons t0 rest =>
    simp only [matchIf] at h
    split at h
    · rcases hq : parseCondition rest with _ | ⟨cond, after⟩
      · rw [hq] at h; simp at h
      · rw [hq] at h
        simp at h
        obtain rfl := h
        have hlen := parseCondition_len rest cond after hq
        have ht := tail_len_le after
        intro sp hsp
        simp [rawSpans] at hsp
        have hs1 := splitAtElse_len after
        have hs2 := splitAtElse_len after.tail
        rcases hsp with rfl | rfl <;>
          (split <;> (simp only [List.length_cons]; omega))
    · simp at h


theorem firstSome_pred (P : List Token → Raw → Prop) (ts : List Token)
    (ms : List (List Token → Option Raw))
    (hms : ∀ m ∈ ms, ∀ r, m ts = some r → P ts r)
    (raw : Raw) (h : firstSome ts ms = some raw) : P ts raw := by
  induction ms with
  | nil => simp [firstSome] at h
  | cons m rest ih =>
    simp only [firstSome] at h
    rcases hm : m ts with _ | r
    · rw [hm] at h
      exact ih (fun m2 hm2 => hms m2 (List.mem_cons_of_mem _ hm2)) h
    · rw [hm] at h
      obtain rfl := Option.some.inj h
      exact hms m (List.mem_cons_self _ _) r hm

theorem matchRules_spans_shorter (ts : List Token) (raw : Raw)
    (h : matchRules ts = some raw) :
    ∀ sp ∈ rawSpans raw, sp.length < ts.length := by
  refine firstSome_pred (fun ts raw => ∀ sp ∈ rawSpans raw, sp.length < ts.length)
    ts GRAMMAR_RULES ?_ raw h
  intro m hm r hr
  simp only [GRAMMAR_RULES, List.mem_cons, List.not_mem_nil, or_false] at hm
  rcases hm with rfl | rfl | rfl | rfl | rfl | rfl | rfl | rfl | rfl | rfl | rfl | rfl | rfl | rfl | rfl | rfl
  · exact matchComment_spans ts r hr
  · exact matchListCreation_spans ts r hr
  · exact matchAppend_spans ts r hr
  · exact matchFunctionDef_spans ts r hr
  · exact matchFunctionCall_spans ts r hr
  · exact matchReturn_spans ts r hr
  · exact matchForLoop_spans ts r hr
  · exact matchWhile_spans ts r hr
  · exact matchIf_spans ts r hr
  · exact matchArithmetic_spans ts r hr
  · exact matchIncrement_spans ts r hr
  · exact matchDecrement_spans ts r hr
  · exact matchInput_spans ts r hr
  · exact matchVariableCreation_spans ts r hr
  · exact matchAssignment_spans ts r hr
  · exact matchPrint_spans ts r hr

theorem parseF_congr :
    ∀ (n : Nat) (ts : List Token), ts.length ≤ n →
      ∀ f1 f2, ts.length ≤ f1 → ts.length ≤ f2 → parseF f1 ts = parseF f2 ts := by
  intro n
  induction n using Nat.strong_induction_on with
  | _ n ih =>
    intro ts hn f1 f2 h1 h2
    match f1, f2 with
    | 0, 0 => rfl
    | 0, g2 + 1 =>
      have : ts = [] := List.eq_nil_of_length_eq_zero (Nat.le_zero.mp h1)
      subst this
      simp [parseF]
    | g1 + 1, 0 =>
      have : ts = [] := List.eq_nil_of_length_eq_zero (Nat.le_zero.mp h2)
      subst this
      simp [parseF]
    | g1 + 1, g2 + 1 =>
      simp only [parseF]
      by_cases he : ts.isEmpty
      · simp [he]
      · rw [if_neg he, if_neg he]
        rcases hm : matchRules ts with _ | raw
        · rfl
        · have hspans := matchRules_spans_shorter ts raw hm
          have hsub : ∀ bts : List Token, bts ∈ rawSpans raw →
              parseF g1 bts = parseF g2 bts := by
            intro bts hb
            have hlt : bts.length < ts.length := hspans bts hb
            exact ih bts.length (by omega) bts (le_refl _) g1 g2 (by omega) (by omega)
          cases raw with
          | rfunction_def nm ps bts =>
            exact congrArg (fun p => ParseResult.ok (Node.function_def nm ps
              (if bts.isEmpty then none else toBody p)))
              (hsub bts (by simp [rawSpans]))
          | rfor_loop v fv tv sv bts =>
            exact congrArg (fun p => ParseResult.ok (Node.for_loop v fv tv sv
              (if bts.isEmpty then none else toBody p)))
              (hsub bts (by simp [rawSpans]))
          | rwhile_loop c bts =>
            exact congrArg (fun p => ParseResult.ok (Node.while_loop c
              (if bts.isEmpty then none else toBody p)))
              (hsub bts (by simp [rawSpans]))
          | rif_statement c tts ets =>
            have h12 : (parseF g1 tts, parseF g1 ets) =
                (parseF g2 tts, parseF g2 ets) := by
              rw [hsub tts (by simp [rawSpans]), hsub ets (by simp [rawSpans])]
            exact congrArg (fun p : ParseResult × ParseResult =>
              ParseResult.ok (Node.if_statement c
                (if tts.isEmpty then none else toBody p.1)
                (if ets.isEmpty then none else toBody p.2))) h12
          | rcomment x => rfl
          | rlist_creation a b => rfl
          | rappend a b => rfl
          | rfunction_call a b => rfl
          | rreturn a => rfl
          | rarithmetic a b c d => rfl
          | rincrement a b => rfl
          | rdecrement a b => rfl
          | rinput a => rfl
          | rvariable_creation a b => rfl
          | rassignment a b => rfl
          | rprint a => rfl

theorem parseF_fuel_irrelevant (fuel : Nat) (ts : List Token)
    (h : ts.length ≤ fuel) : parseF fuel ts = parse ts :=
  parseF_congr fuel ts h fuel ts.length h (le_refl _)

/-- C10.  `parse` terminates on every finite token list: every token span
captured by a successful rule match (`bodyTokens`, `thenTokens`,
`elseTokens`) is strictly shorter than the matched token list, and therefore
recursion fuel equal to the token count is always sufficient: `parseF` is
fuel-irrelevant above `tokens.length`. -/
theorem C10_parse_terminates :
    (∀ (ts : List Token) (raw : Raw), matchRules ts = some raw →
       ∀ sp ∈ rawSpans raw, sp.length < ts.length) ∧
    (∀ (fuel : Nat) (ts : List Token), ts.length ≤ fuel →
       parseF fuel ts = parse ts) :=
  ⟨matchRules_spans_shorter, parseF_fuel_irrelevant⟩

theorem C10_parse_terminates_witness :
    (∀ sp ∈ rawSpans (Raw.rwhile_loop ⟨"x", "less", "5"⟩ (tokenize "print x")),
       sp.length < (tokenize "while x less 5 do print x").length) ∧
    parseF 10 (tokenize "while x less 5 do print x") =
      parse (tokenize "while x less 5 do print x") :=
  ⟨C10_parse_terminates.1 (tokenize "while x less 5 do print x") _ rfl,
   C10_parse_terminates.2 10 (tokenize "while x less 5 do print x") (by decide)⟩



theorem procLines_err_mem :
    ∀ (lines : List String) (idx i : Nat), lines.get? i = some "" →
      (LineError.mk (idx + i + 1) "Empty input") ∈ (procLines lines idx).2.1 := by
  intro lines
  induction lines with
  | nil => intro idx i h; simp at h
  | cons l rest ih =>
    intro idx i h
    cases i with
    | zero =>
      simp at h
      subst h
      simp only [procLines]
      have hp : parse (tokenize "") = ParseResult.err "Empty input" := rfl
      rw [hp]
      simp
    | succ j =>
      have h2 : rest.get? j = some "" := by simpa using h
      have hmem := ih (idx + 1) j h2
      have heq : idx + 1 + j + 1 = idx + (j + 1) + 1 := by omega
      rw [heq] at hmem
      simp only [procLines]
      cases hp : parse (tokenize l) with
      | ok n => simpa using hmem
      | err e => simp only [List.mem_cons]; exact Or.inr hmem

theorem procLines_length :
    ∀ (lines : List String) (idx : Nat),
      (procLines lines idx).1.length + (procLines lines idx).2.1.length = lines.length := by
  intro lines
  induction lines with
  | nil => intro idx; simp [procLines]
  | cons l rest ih =>
    intro idx
    simp only [procLines]
    cases hp : parse (tokenize l) with
    | ok n => simp only [List.length_cons]; have := ih (idx + 1); omega
    | err e => simp only [List.length_cons]; have := ih (idx + 1); omega

theorem procLines_nodes_any :
    ∀ (lines : List String) (idx : Nat),
      ((procLines lines idx).1 ≠ [] ↔
        lines.any (fun l => (parse (tokenize l)).isOk) = true) := by
  intro lines
  induction lines with
  | nil => intro idx; simp [procLines]
  | cons l rest ih =>
    intro idx
    simp only [procLines, List.any_cons]
    cases hp : parse (tokenize l) with
    | ok n => simp [ParseResult.isOk, hp]
    | err e =>
      simp only [hp, ParseResult.isOk, Bool.false_or]
      exact ih (idx + 1)

/-- C4 amended.  In multi-line translation, a cleaned line that is the empty
string yields the error entry `{line: i+1, error: "Empty input"}` (indices
counted among the non-blank raw lines); independently of it, the whole
translation succeeds exactly when at least one cleaned line parses. -/
theorem C4_amended_empty_line (input : String) (lang : Lang) (i : Nat)
    (h : (preprocessLines input).get? i = some "") :
    (LineError.mk (i + 1) "Empty input") ∈ (translateProgram input lang).errors ∧
    ((translateProgram input lang).success = true ↔
      (preprocessLines input).any (fun l => (parse (tokenize l)).isOk) = true) := by
  have hne : preprocessLines input ≠ [] := by
    intro hcon
    rw [hcon] at h
    simp at h
  have hmem : (LineError.mk (i + 1) "Empty input") ∈
      (procLines (preprocessLines input) 0).2.1 := by
    have := procLines_err_mem (preprocessLines input) 0 i h
    simpa using this
  have hlen := procLines_length (preprocessLines input) 0
  have hany := procLines_nodes_any (preprocessLines input) 0
  simp only [translateProgram]
  rw [if_neg (by simpa using hne)]
  split
  · rename_i hcond
    refine ⟨by simpa using hmem, ?_⟩
    simp only [Bool.and_eq_true, List.isEmpty_eq_true, Bool.not_eq_true',
      List.isEmpty_eq_false] at hcond
    have hnil : (procLines (preprocessLines input) 0).1 = [] := hcond.1
    constructor
    · intro hfalse; cases hfalse
    · intro ha
      exact absurd hnil (hany.mpr ha)
  · rename_i hcond
    refine ⟨by simpa using hmem, ?_⟩
    have herrne : (procLines (preprocessLines input) 0).2.1 ≠ [] := by
      intro hcon
      rw [hcon] at hmem
      simp at hmem
    have hnodes : (procLines (preprocessLines input) 0).1 ≠ [] := by
      intro hn
      apply hcond
      simp only [Bool.and_eq_true, List.isEmpty_eq_true, Bool.not_eq_true',
        List.isEmpty_eq_false]
      exact ⟨hn, herrne⟩
    exact ⟨fun _ => hany.mp hnodes, fun _ => rfl⟩



theorem C4_amended_witness :
    ((preprocessLines "please\nprint x").get? 0 = some "") ∧
    ((LineError.mk 1 "Empty input") ∈
       (translateProgram "please\nprint x" Lang.python).errors ∧
     ((translateProgram "please\nprint x" Lang.python).success = true ↔
       (preprocessLines "please\nprint x").any
         (fun l => (parse (tokenize l)).isOk) = true)) :=
  ⟨rfl, C4_amended_empty_line "please\nprint x" Lang.python 0 rfl⟩

/-- C5 amended.  For a non-empty node list the generated Java program
starts with exactly the imports of `javaImportsSpec` (Scanner iff an input
node is present; ArrayList/Arrays iff a list-creation node is present) and
the generated C++ program starts with exactly the includes of
`cppIncludesSpec` (`iostream` and `string` unconditionally; `vector` iff a
list-creation or append node is present), each directive occurring once. -/
theorem C5_amended_imports (nodes : List Node) (h : nodes ≠ []) :
    (∃ rest, generateProgram nodes Lang.cpp = cppIncludesSpec nodes ++ rest) ∧
    (∃ rest, generateProgram nodes Lang.java = javaImportsSpec nodes ++ rest) := by
  have hne : ¬nodes.isEmpty = true := by simpa using h
  constructor
  · refine ⟨"\n" ++
      ("\n\n".intercalate
        ((nodes.filter (fun n => nodeType n == "function_def")).map
          (fun n => generate n Lang.cpp)) ++
       ("\nint main() \x7b\n" ++
        ("\n".intercalate
          ((nodes.filter (fun n => nodeType n != "function_def")).map
            (fun n => indent (generate n Lang.cpp) 1 Lang.cpp)) ++
         "\n    return 0;\n\x7d"))), ?_⟩
    simp only [generateProgram, cppIncludesSpec]
    rw [if_neg hne]
    simp only [String.append_assoc]
  · refine ⟨"public class Main \x7b\n" ++
      ("\n\n".intercalate
        ((nodes.filter (fun n => nodeType n == "function_def")).map
          (fun n => indent (generate n Lang.java) 1 Lang.java)) ++
       ("\n    public static void main(String[] args) \x7b\n" ++
        ((if nodes.any (fun n => nodeType n == "input") then
            indent "Scanner scanner = new Scanner(System.in);" 2 Lang.java ++ "\n"
          else "") ++
         ("\n".intercalate
           ((nodes.filter (fun n => nodeType n != "function_def")).map
             (fun n => indent (generate n Lang.java) 2 Lang.java)) ++
          "\n    \x7d\n\x7d")))), ?_⟩
    simp only [generateProgram, javaImportsSpec]
    rw [if_neg hne]
    simp only [String.append_assoc]

theorem C5_amended_witness :
    ([Node.print ["x"], Node.input "v"] ≠ ([] : List Node)) ∧
    ((∃ rest, generateProgram [Node.print ["x"], Node.input "v"] Lang.cpp =
        cppIncludesSpec [Node.print ["x"], Node.input "v"] ++ rest) ∧
     (∃ rest, generateProgram [Node.print ["x"], Node.input "v"] Lang.java =
        javaImportsSpec [Node.print ["x"], Node.input "v"] ++ rest)) :=
  ⟨List.cons_ne_nil _ _,
   C5_amended_imports [Node.print ["x"], Node.input "v"] (List.cons_ne_nil _ _)⟩



theorem takeWhile_of_all (p : Char → Bool) (l : List Char) (h : l.all p = true) :
    l.takeWhile p = l := by
  induction l with
  | nil => rfl
  | cons c cs ih =>
    simp only [List.all_cons, Bool.and_eq_true] at h
    simp [List.takeWhile_cons, h.1, ih h.2]

theorem decimal_head_digit (l : List Char) (h : isDecimalChars l = true) :
    ∃ c, l.head? = some c ∧ c.isDigit = true := by
  cases l with
  | nil => simp [isDecimalChars] at h
  | cons c cs =>
    refine ⟨c, rfl, ?_⟩
    by_cases hc : c.isDigit = true
    · exact hc
    · exfalso
      simp only [isDecimalChars, List.takeWhile_cons] at h
      rw [if_neg hc] at h
      simp at h

theorem int_head_digit (l : List Char) (h : isIntChars l = true) :
    ∃ c, l.head? = some c ∧ c.isDigit = true := by
  cases l with
  | nil => simp [isIntChars] at h
  | cons c cs =>
    simp only [isIntChars, List.all_cons, Bool.and_eq_true] at h
    exact ⟨c, rfl, h.2.1⟩

theorem int_not_decimal (l : List Char) (h : isIntChars l = true) :
    isDecimalChars l = false := by
  simp only [isIntChars, Bool.and_eq_true] at h
  have htw : l.takeWhile Char.isDigit = l := takeWhile_of_all _ l h.2
  simp only [isDecimalChars, htw]
  simp

theorem quoted_head (s : List Char) (h : isQuotedBy dq s = true) :
    s.head? = some dq := by
  cases s with
  | nil => simp [isQuotedBy] at h
  | cons c cs =>
    simp only [isQuotedBy, Bool.and_eq_true, beq_iff_eq] at h
    rw [h.1.1.1]
    rfl



/-- C6 amended.  The statically inferred types of the typed targets, by the
value's literal shape: boolean literals give boolean/bool; double-quoted
strings give String/std::string; unsigned decimals give double; unsigned
integers give int; every other present value (identifiers, negative
numerals, ...) gives the auto placeholder (var/auto); but an absent (null)
value gives int, not the placeholder. -/
theorem C6_amended_infer (v : Option String) :
    (v = none → javaType v = "int" ∧ cppType v = "int") ∧
    (∀ s, v = some s → (s = "true" ∨ s = "false") →
       javaType v = "boolean" ∧ cppType v = "bool") ∧
    (∀ s, v = some s → isQuotedBy dq s.data = true →
       javaType v = "String" ∧ cppType v = "std::string") ∧
    (∀ s, v = some s → isDecimalChars s.data = true →
       javaType v = "double" ∧ cppType v = "double") ∧
    (∀ s, v = some s → isIntChars s.data = true →
       javaType v = "int" ∧ cppType v = "int") ∧
    (∀ s, v = some s → s ≠ "true" → s ≠ "false" → isQuotedBy dq s.data = false →
       isDecimalChars s.data = false → isIntChars s.data = false →
       javaType v = "var" ∧ cppType v = "auto") := by
  refine ⟨?_, ?_, ?_, ?_, ?_, ?_⟩
  · rintro rfl
    exact ⟨rfl, rfl⟩
  · rintro s rfl hb
    rcases hb with rfl | rfl <;> exact ⟨rfl, rfl⟩
  · rintro s rfl hq
    have hs1 : s ≠ "true" := by
      rintro rfl; exact absurd hq (by decide)
    have hs2 : s ≠ "false" := by
      rintro rfl; exact absurd hq (by decide)
    have hb1 : (s == "true") = false := by simpa using hs1
    have hb2 : (s == "false") = false := by simpa using hs2
    constructor <;>
      simp [javaType, cppType, inferType, hb1, hb2, hq]
  · rintro s rfl hd
    obtain ⟨c, hc, hcd⟩ := decimal_head_digit s.data hd
    have hq : isQuotedBy dq s.data = false := by
      by_cases h : isQuotedBy dq s.data = true
      · have := quoted_head s.data h
        rw [this] at hc
        obtain rfl := Option.some.inj hc
        exact absurd hcd (by decide)
      · simpa using h
    have hs1 : s ≠ "true" := by
      rintro rfl; exact absurd hd (by decide)
    have hs2 : s ≠ "false" := by
      rintro rfl; exact absurd hd (by decide)
    have hb1 : (s == "true") = false := by simpa using hs1
    have hb2 : (s == "false") = false := by simpa using hs2
    constructor <;>
      simp [javaType, cppType, inferType, hb1, hb2, hq, hd]
  · rintro s rfl hi
    obtain ⟨c, hc, hcd⟩ := int_head_digit s.data hi
    have hq : isQuotedBy dq s.data = false := by
      by_cases h : isQuotedBy dq s.data = true
      · have := quoted_head s.data h
        rw [this] at hc
        obtain rfl := Option.some.inj hc
        exact absurd hcd (by decide)
      · simpa using h
    have hd : isDecimalChars s.data = false := int_not_decimal s.data hi
    have hs1 : s ≠ "true" := by
      rintro rfl; exact absurd hi (by decide)
    have hs2 : s ≠ "false" := by
      rintro rfl; exact absurd hi (by decide)
    have hb1 : (s == "true") = false := by simpa using hs1
    have hb2 : (s == "false") = false := by simpa using hs2
    constructor <;>
      simp [javaType, cppType, inferType, hb1, hb2, hq, hd, hi]
  · rintro s rfl hs1 hs2 hq hd hi
    have hb1 : (s == "true") = false := by simpa using hs1
    have hb2 : (s == "false") = false := by simpa using hs2
    constructor <;>
      simp [javaType, cppType, inferType, hb1, hb2, hq, hd, hi]

theorem C6_amended_witness :
    (javaType (some "\"a\"") = "String" ∧ cppType (some "\"a\"") = "std::string") ∧
    (javaType (some "count") = "var" ∧ cppType (some "count") = "auto") :=
  ⟨(C6_amended_infer (some "\"a\"")).2.2.1 "\"a\"" rfl (by decide),
   (C6_amended_infer (some "count")).2.2.2.2.2 "count" rfl (by decide) (by decide)
     (by decide) (by decide) (by decide)⟩


theorem toNat_ofNat_valid (n : Nat) (h : n.isValidChar) : (Char.ofNat n).toNat = n := by
  simp [Char.ofNat, h, Char.ofNatAux, Char.toNat, UInt32.toNat]

theorem toLower_idem (c : Char) : c.toLower.toLower = c.toLower := by
  simp only [Char.toLower]
  by_cases h : c.toNat ≥ 65 ∧ c.toNat ≤ 90
  · rw [if_pos h]
    have hval : (Char.ofNat (c.toNat + 32)).toNat = c.toNat + 32 :=
      toNat_ofNat_valid _ (Or.inl (by omega))
    rw [if_neg (by rw [hval]; omega)]
  · rw [if_neg h, if_neg h]

theorem space_cases (c : Char) (h : isJsSpace c = true) :
    c = ' ' ∨ c = Char.ofNat 9 ∨ c = nlc ∨ c = crc ∨
    c = Char.ofNat 11 ∨ c = Char.ofNat 12 := by
  simp only [isJsSpace, Bool.or_eq_true, beq_iff_eq] at h
  tauto

theorem word_not_space (c : Char) (h : isWordChar c = true) : isJsSpace c = false := by
  by_cases hs : isJsSpace c = true
  · exfalso
    rcases space_cases c hs with rfl | rfl | rfl | rfl | rfl | rfl <;>
      exact absurd h (by decide)
  · simpa using hs

theorem word_not_quote (c : Char) (h : isWordChar c = true) :
    (c == dq || c == sq) = false := by
  by_cases hq : (c == dq || c == sq) = true
  · exfalso
    simp only [Bool.or_eq_true, beq_iff_eq] at hq
    rcases hq with rfl | rfl <;> exact absurd h (by decide)
  · simpa using hq

theorem space_not_quote (c : Char) (h : isJsSpace c = true) :
    (c == dq || c == sq) = false := by
  rcases space_cases c h with rfl | rfl | rfl | rfl | rfl | rfl <;> decide

theorem word_toLower_or_space_stable (c : Char) :
    isWordChar c.toLower = true ∨ c.toLower = c → True := fun _ => trivial

theorem map_id_of_all {f : Char → Char} (l : List Char)
    (h : ∀ c ∈ l, f c = c) : l.map f = l := by
  induction l with
  | nil => rfl
  | cons c cs ih =>
    simp only [List.map_cons]
    rw [h c (List.mem_cons_self _ _), ih (fun d hd => h d (List.mem_cons_of_mem _ hd))]

theorem dropWhile_id_of_head {p : Char → Bool} (l : List Char)
    (h : ∀ c, l.head? = some c → p c = false) : l.dropWhile p = l := by
  cases l with
  | nil => rfl
  | cons c cs =>
    rw [List.dropWhile_cons, if_neg]
    simp [h c rfl]

theorem extractScanF_noquote (fuel : Nat) :
    ∀ (l : List Char) (idx : Nat), (∀ c ∈ l, (c == dq || c == sq) = false) →
      extractScanF fuel l idx = (l, []) := by
  induction fuel with
  | zero => intro l idx _; rfl
  | succ g ih =>
    intro l idx h
    cases l with
    | nil => rfl
    | cons c cs =>
      simp only [extractScanF]
      rw [if_neg]
      · rw [ih cs idx (fun d hd => h d (List.mem_cons_of_mem _ hd))]
      · simp [h c (List.mem_cons_self _ _)]

theorem wsWordsAux_ne :
    ∀ (l acc w : List Char), w ∈ wsWordsAux l acc → w ≠ [] := by
  intro l
  induction l with
  | nil =>
    intro acc w hw
    simp only [wsWordsAux] at hw
    split at hw
    · simp at hw
    · rename_i hacc
      simp only [List.mem_singleton] at hw
      subst hw
      simpa using hacc
  | cons ch cs ih =>
    intro acc w hw
    simp only [wsWordsAux] at hw
    split at hw
    · split at hw
      · exact ih [] w hw
      · rename_i hacc
        rcases List.mem_cons.mp hw with rfl | hw2
        · simpa using hacc
        · exact ih [] w hw2
    · exact ih (ch :: acc) w hw

theorem wsWordsAux_chars (P : Char → Prop) :
    ∀ (l acc : List Char), (∀ c ∈ l, P c) →
      (∀ c ∈ acc, P c ∧ isJsSpace c = false) →
      ∀ w ∈ wsWordsAux l acc, ∀ c ∈ w, P c ∧ isJsSpace c = false := by
  intro l
  induction l with
  | nil =>
    intro acc _ hacc w hw c hc
    simp only [wsWordsAux] at hw
    split at hw
    · simp at hw
    · simp only [List.mem_singleton] at hw
      subst hw
      exact hacc c (List.mem_reverse.mp hc)
  | cons ch cs ih =>
    intro acc hl hacc w hw c hc
    simp only [wsWordsAux] at hw
    have hl2 : ∀ c ∈ cs, P c := fun d hd => hl d (List.mem_cons_of_mem _ hd)
    split at hw
    · split at hw
      · exact ih [] hl2 (by simp) w hw c hc
      · rcases List.mem_cons.mp hw with rfl | hw2
        · exact hacc c (List.mem_reverse.mp hc)
        · exact ih [] hl2 (by simp) w hw2 c hc
    · rename_i hsp
      refine ih (ch :: acc) hl2 ?_ w hw c hc
      intro d hd
      rcases List.mem_cons.mp hd with rfl | hd2
      · exact ⟨hl d (List.mem_cons_self _ _), by simpa using hsp⟩
      · exact hacc d hd2

theorem dropWhile_eq_self_of_all {p : Char → Bool} (l : List Char)
    (h : ∀ c ∈ l, p c = false) : l.dropWhile p = l := by
  cases l with
  | nil => rfl
  | cons c cs =>
    rw [List.dropWhile_cons, if_neg]
    simp [h c (List.mem_cons_self _ _)]

theorem trimJS_eq_self_of_spacefree (l : List Char)
    (h : ∀ c ∈ l, isJsSpace c = false) : trimJS l = l := by
  unfold trimJS
  rw [dropWhile_eq_self_of_all l h,
    dropWhile_eq_self_of_all l.reverse (fun c hc => h c (List.mem_reverse.mp hc)),
    List.reverse_reverse]

theorem trimJS_cons_space (X : List Char) : trimJS (' ' :: X) = trimJS X := by
  unfold trimJS
  rw [List.dropWhile_cons, if_pos (by decide)]

theorem collapse_true_false_trim (l : List Char) :
    trimJS (collapseWsAux true l) = trimJS (collapseWsAux false l) := by
  cases l with
  | nil => rfl
  | cons c cs =>
    by_cases hc : isJsSpace c = true
    · simp only [collapseWsAux, hc, if_true, if_false]
      rw [if_neg (by decide), trimJS_cons_space]
    · simp [collapseWsAux, hc]

theorem dropWhile_append_of_ne {p : Char → Bool} (a b : List Char)
    (h : ∃ c ∈ a, p c = false) :
    (a ++ b).dropWhile p = a.dropWhile p ++ b := by
  induction a with
  | nil => simp at h
  | cons c cs ih =>
    by_cases hc : p c = true
    · simp only [List.cons_append, List.dropWhile_cons, hc, if_pos]
      obtain ⟨d, hd, hdp⟩ := h
      rcases List.mem_cons.mp hd with rfl | hd2
      · rw [hc] at hdp; cases hdp
      · exact ih ⟨d, hd2, hdp⟩
    · simp only [List.cons_append, List.dropWhile_cons, hc]
      simp [hc]

theorem collapse_true_head (l : List Char) :
    collapseWsAux true l = [] ∨
    ∃ d X, collapseWsAux true l = d :: X ∧ isJsSpace d = false := by
  induction l with
  | nil => exact Or.inl rfl
  | cons c cs ih =>
    simp only [collapseWsAux]
    by_cases hc : isJsSpace c = true
    · rw [if_pos hc]
      exact ih
    · rw [if_neg hc]
      exact Or.inr ⟨c, collapseWsAux false cs, rfl, by simpa using hc⟩

theorem trim_word_space (w : List Char) (hw : w ≠ [])
    (hsf : ∀ c ∈ w, isJsSpace c = false) :
    trimJS (w ++ [' ']) = w := by
  unfold trimJS
  have hex : ∃ c ∈ w, isJsSpace c = false := by
    cases w with
    | nil => exact absurd rfl hw
    | cons c cs => exact ⟨c, List.mem_cons_self _ _, hsf c (List.mem_cons_self _ _)⟩
  rw [dropWhile_append_of_ne w [' '] hex, dropWhile_eq_self_of_all w hsf]
  rw [List.reverse_append]
  simp only [List.reverse_cons, List.reverse_nil, List.nil_append, List.singleton_append]
  rw [List.dropWhile_cons, if_pos (by decide),
    dropWhile_eq_self_of_all w.reverse (fun c hc => hsf c (List.mem_reverse.mp hc)),
    List.reverse_reverse]

theorem trim_word_space_word (w X : List Char) (hw : w ≠ [])
    (hsf : ∀ c ∈ w, isJsSpace c = false)
    (d : Char) (X' : List Char) (hX : X = d :: X') (hd : isJsSpace d = false) :
    trimJS (w ++ ' ' :: X) = w ++ ' ' :: trimJS X := by
  have hex : ∃ c ∈ w, isJsSpace c = false := by
    cases w with
    | nil => exact absurd rfl hw
    | cons c cs => exact ⟨c, List.mem_cons_self _ _, hsf c (List.mem_cons_self _ _)⟩
  have hexX : ∃ c ∈ X.reverse, isJsSpace c = false := by
    refine ⟨d, ?_, hd⟩
    rw [hX]
    exact List.mem_reverse.mpr (List.mem_cons_self _ _)
  unfold trimJS
  rw [dropWhile_append_of_ne w (' ' :: X) hex, dropWhile_eq_self_of_all w hsf]
  rw [List.reverse_append, List.reverse_cons]
  rw [List.append_assoc]
  rw [dropWhile_append_of_ne X.reverse ([' '] ++ w.reverse) hexX]
  have hXl : X.dropWhile isJsSpace = X := by
    rw [hX]
    rw [List.dropWhile_cons, if_neg (by simp [hd])]
  rw [hXl]
  simp only [List.reverse_append, List.reverse_reverse, List.reverse_cons,
    List.reverse_nil, List.nil_append, List.singleton_append]
  rw [List.append_assoc]
  simp

theorem dropWhile_nil_all {p : Char → Bool} (l : List Char)
    (h : l.dropWhile p = []) : ∀ c ∈ l, p c = true := by
  induction l with
  | nil => simp
  | cons c cs ih =>
    rw [List.dropWhile_cons] at h
    split at h
    · rename_i hc
      intro d hd
      rcases List.mem_cons.mp hd with rfl | hd2
      · exact hc
      · exact ih h d hd2
    · cases h

theorem trimJS_ne_nil (d : Char) (X : List Char) (hd : isJsSpace d = false) :
    trimJS (d :: X) ≠ [] := by
  intro hcon
  unfold trimJS at hcon
  have h1 : (d :: X).dropWhile isJsSpace = d :: X := by
    rw [List.dropWhile_cons, if_neg (by simp [hd])]
  rw [h1] at hcon
  have h2 : (d :: X).reverse.dropWhile isJsSpace = [] := by
    have := congrArg List.reverse hcon
    simpa using this
  have := dropWhile_nil_all _ h2 d (by simp)
  rw [this] at hd
  cases hd

theorem joinSp_cons (x : List Char) (F : List (List Char)) (h : F ≠ []) :
    joinSp (x :: F) = x ++ ' ' :: joinSp F := by
  cases F with
  | nil => exact absurd rfl h
  | cons y F2 => rfl

theorem joinSp_eq_nil (F : List (List Char)) (hne : ∀ w ∈ F, w ≠ [])
    (h : joinSp F = []) : F = [] := by
  cases F with
  | nil => rfl
  | cons w F2 =>
    cases F2 with
    | nil =>
      simp only [joinSp] at h
      exact absurd h (hne w (List.mem_cons_self _ _))
    | cons y F3 =>
      rw [joinSp_cons _ _ (by simp)] at h
      cases hw : w with
      | nil => exact absurd rfl (hne [] (by rw [← hw]; exact List.mem_cons_self _ _))
      | cons a as =>
        rw [hw] at h
        cases h

theorem collapse_trim_words (l : List Char) :
    (trimJS (collapseWsAux true l) = joinSp (wsWordsAux l [])) ∧
    (∀ acc, acc ≠ [] → (∀ c ∈ acc, isJsSpace c = false) →
      trimJS (acc.reverse ++ collapseWsAux false l) = joinSp (wsWordsAux l acc)) := by
  induction l with
  | nil =>
    constructor
    · rfl
    · intro acc hne hsf
      simp only [collapseWsAux, List.append_nil, wsWordsAux]
      rw [if_neg (by simpa using hne)]
      rw [trimJS_eq_self_of_spacefree _ (fun c hc => hsf c (List.mem_reverse.mp hc))]
      rfl
  | cons c cs ih =>
    obtain ⟨ih1, ih2⟩ := ih
    constructor
    · by_cases hc : isJsSpace c = true
      · simp only [collapseWsAux, hc, if_true, wsWordsAux, List.isEmpty_nil]
        exact ih1
      · simp only [collapseWsAux, hc, if_false, wsWordsAux, Bool.false_eq_true]
        have := ih2 [c] (by simp) (by intro d hd; simp at hd; subst hd; simpa using hc)
        simpa using this
    · intro acc hne hsf
      by_cases hc : isJsSpace c = true
      · simp only [collapseWsAux, hc, if_true, if_false, wsWordsAux]
        rw [if_neg (by decide)]
        rw [if_neg (by simpa using hne)]
        have haccrev_ne : acc.reverse ≠ [] := by simpa using hne
        have haccrev_sf : ∀ d ∈ acc.reverse, isJsSpace d = false :=
          fun d hd => hsf d (List.mem_reverse.mp hd)
        rcases collapse_true_head cs with hX | ⟨d, X2, hX, hd⟩
        · rw [hX]
          rw [trim_word_space acc.reverse haccrev_ne haccrev_sf]
          have hws_nil : wsWordsAux cs [] = [] := by
            have hj : joinSp (wsWordsAux cs []) = [] := by
              rw [← ih1, hX]
              rfl
            exact joinSp_eq_nil _ (fun w hw => wsWordsAux_ne cs [] w hw) hj
          rw [hws_nil]
          rfl
        · rw [hX]
          rw [trim_word_space_word acc.reverse (d :: X2) haccrev_ne haccrev_sf d X2 rfl hd]
          rw [← hX, ih1]
          have hws_ne : wsWordsAux cs [] ≠ [] := by
            intro hcon
            have : trimJS (collapseWsAux true cs) = [] := by
              rw [ih1, hcon]
              rfl
            rw [hX] at this
            exact trimJS_ne_nil d X2 hd this
          rw [joinSp_cons _ _ hws_ne]
      · simp only [collapseWsAux, hc, if_false, wsWordsAux, Bool.false_eq_true]
        have heq : acc.reverse ++ c :: collapseWsAux false cs =
            (c :: acc).reverse ++ collapseWsAux false cs := by
          simp
        rw [heq]
        exact ih2 (c :: acc) (by simp)
          (by
            intro d hd
            rcases List.mem_cons.mp hd with rfl | hd2
            · simpa using hc
            · exact hsf d hd2)




theorem splitSp_ne_nil (l : List Char) : splitSp l ≠ [] := by
  cases l with
  | nil => simp [splitSp]
  | cons c cs =>
    simp only [splitSp]
    split
    · simp
    · split <;> simp

theorem splitSp_spacefree (f : List Char) (h : ∀ c ∈ f, (c == ' ') = false) :
    splitSp f = [f] := by
  induction f with
  | nil => rfl
  | cons c cs ih =>
    simp only [splitSp]
    rw [if_neg (by simp [h c (List.mem_cons_self _ _)])]
    rw [ih (fun d hd => h d (List.mem_cons_of_mem _ hd))]

theorem splitSp_append (f l : List Char) (h : ∀ c ∈ f, (c == ' ') = false) :
    splitSp (f ++ l) =
      match splitSp l with
      | w :: ws => (f ++ w) :: ws
      | [] => [f] := by
  induction f with
  | nil =>
    simp only [List.nil_append]
    cases hs : splitSp l with
    | nil => exact absurd hs (splitSp_ne_nil l)
    | cons w ws => simp
  | cons c cs ih =>
    simp only [List.cons_append, splitSp]
    rw [if_neg (by simp [h c (List.mem_cons_self _ _)])]
    simp only [List.append_eq]
    rw [ih (fun d hd => h d (List.mem_cons_of_mem _ hd))]
    cases hs : splitSp l with
    | nil => exact absurd hs (splitSp_ne_nil l)
    | cons w ws => simp

theorem splitSp_joinSp (F : List (List Char)) (hne : F ≠ [])
    (hsf : ∀ w ∈ F, ∀ c ∈ w, (c == ' ') = false) :
    splitSp (joinSp F) = F := by
  induction F with
  | nil => exact absurd rfl hne
  | cons w F2 ih =>
    cases hF2 : F2 with
    | nil =>
      simp only [joinSp]
      exact splitSp_spacefree w (hsf w (List.mem_cons_self _ _))
    | cons y F3 =>
      rw [← hF2, joinSp_cons w F2 (by rw [hF2]; simp)]
      rw [splitSp_append w (' ' :: joinSp F2) (hsf w (List.mem_cons_self _ _))]
      have hsplit : splitSp (' ' :: joinSp F2) = [] :: splitSp (joinSp F2) := by
        simp [splitSp]
      rw [hsplit]
      rw [ih (by rw [hF2]; simp)
        (fun v hv c hc => hsf v (List.mem_cons_of_mem _ hv) c hc)]
      simp

theorem wsWordsAux_word_append (w : List Char) :
    ∀ (l acc : List Char), (∀ c ∈ w, isJsSpace c = false) →
      wsWordsAux (w ++ l) acc = wsWordsAux l (w.reverse ++ acc) := by
  induction w with
  | nil => intro l acc _; simp
  | cons c cs ih =>
    intro l acc hsf
    simp only [List.cons_append, wsWordsAux]
    rw [if_neg (by simp [hsf c (List.mem_cons_self _ _)])]
    simp only [List.append_eq]
    rw [ih l (c :: acc) (fun d hd => hsf d (List.mem_cons_of_mem _ hd))]
    simp

theorem wsWords_joinSp (F : List (List Char))
    (hprop : ∀ w ∈ F, w ≠ [] ∧ ∀ c ∈ w, isJsSpace c = false) :
    wsWords (joinSp F) = F := by
  induction F with
  | nil => rfl
  | cons w F2 ih =>
    obtain ⟨hwne, hwsf⟩ := hprop w (List.mem_cons_self _ _)
    cases hF2 : F2 with
    | nil =>
      simp only [joinSp]
      unfold wsWords
      rw [show w = w ++ [] by simp, wsWordsAux_word_append w [] [] hwsf]
      simp only [wsWordsAux, List.append_nil]
      rw [if_neg (by simpa using hwne)]
      simp
    | cons y F3 =>
      rw [← hF2, joinSp_cons w F2 (by rw [hF2]; simp)]
      unfold wsWords
      rw [wsWordsAux_word_append w (' ' :: joinSp F2) [] hwsf]
      simp only [wsWordsAux, List.append_nil]
      rw [if_pos (by decide)]
      rw [if_neg (by simpa using hwne)]
      rw [List.reverse_reverse]
      have := ih (fun v hv => hprop v (List.mem_cons_of_mem _ hv))
      unfold wsWords at this
      rw [this]

theorem not_space_beq (c : Char) (h : isJsSpace c = false) : (c == ' ') = false := by
  by_cases hc : (c == ' ') = true
  · have hcs : c = ' ' := eq_of_beq hc
    subst hcs
    exact absurd h (by decide)
  · simpa using hc

theorem list_map_id_of_all {α : Type} (f : α → α) (l : List α)
    (h : ∀ a ∈ l, f a = a) : l.map f = l := by
  induction l with
  | nil => rfl
  | cons a as ih =>
    simp only [List.map_cons]
    rw [h a (List.mem_cons_self _ _), ih (fun b hb => h b (List.mem_cons_of_mem _ hb))]

theorem list_filter_eq_self_of_all {α : Type} (p : α → Bool) (l : List α)
    (h : ∀ a ∈ l, p a = true) : l.filter p = l := by
  induction l with
  | nil => rfl
  | cons a as ih =>
    rw [List.filter_cons, if_pos (h a (List.mem_cons_self _ _))]
    rw [ih (fun b hb => h b (List.mem_cons_of_mem _ hb))]

theorem mem_dropWhile {p : Char → Bool} :
    ∀ (l : List Char) (c : Char), c ∈ l.dropWhile p → c ∈ l := by
  intro l
  induction l with
  | nil => simp
  | cons a as ih =>
    intro c hc
    rw [List.dropWhile_cons] at hc
    split at hc
    · exact List.mem_cons_of_mem _ (ih c hc)
    · exact hc

theorem mem_trimJS (l : List Char) (c : Char) (h : c ∈ trimJS l) : c ∈ l := by
  unfold trimJS at h
  have h1 := List.mem_reverse.mp h
  have h2 := mem_dropWhile _ _ h1
  have h3 := List.mem_reverse.mp h2
  exact mem_dropWhile _ _ h3

theorem toLower_not_quote (c : Char) (h : (c == dq || c == sq) = false) :
    (c.toLower == dq || c.toLower == sq) = false := by
  simp only [Char.toLower]
  by_cases hr : c.toNat ≥ 65 ∧ c.toNat ≤ 90
  · rw [if_pos hr]
    have hval : (Char.ofNat (c.toNat + 32)).toNat = c.toNat + 32 :=
      toNat_ofNat_valid _ (Or.inl (by omega))
    by_cases hq2 : (Char.ofNat (c.toNat + 32) == dq || Char.ofNat (c.toNat + 32) == sq) = true
    · exfalso
      simp only [Bool.or_eq_true, beq_iff_eq] at hq2
      have hdq : dq.toNat = 34 := by decide
      have hsq : sq.toNat = 39 := by decide
      rcases hq2 with he | he
      · have h2 := congrArg Char.toNat he
        rw [hval, hdq] at h2
        omega
      · have h2 := congrArg Char.toNat he
        rw [hval, hsq] at h2
        omega
    · simpa using hq2
  · rw [if_neg hr]
    exact h

theorem trimJS_collapseWs (l : List Char) :
    trimJS (collapseWs l) = joinSp (wsWords l) := by
  unfold collapseWs wsWords
  rw [← collapse_true_false_trim]
  exact (collapse_trim_words l).1

theorem joinSp_head_ne (F : List (List Char)) (hne : F ≠ [])
    (hw : ∀ w ∈ F, w ≠ [] ∧ ∀ c ∈ w, isJsSpace c = false) :
    ∃ d X, joinSp F = d :: X ∧ isJsSpace d = false := by
  cases F with
  | nil => exact absurd rfl hne
  | cons w F2 =>
    obtain ⟨hwne, hwsf⟩ := hw w (List.mem_cons_self _ _)
    cases hw0 : w with
    | nil => exact absurd hw0 hwne
    | cons a as =>
      have ha : isJsSpace a = false := by
        apply hwsf
        rw [hw0]
        exact List.mem_cons_self _ _
      cases F2 with
      | nil => exact ⟨a, as, by simp [joinSp, hw0], ha⟩
      | cons y F3 =>
        refine ⟨a, as ++ ' ' :: joinSp (y :: F3), ?_, ha⟩
        rw [joinSp_cons (a :: as) (y :: F3) (by simp)]
        simp

theorem trimJS_joinSp (F : List (List Char)) (hne : F ≠ [])
    (hw : ∀ w ∈ F, w ≠ [] ∧ ∀ c ∈ w, isJsSpace c = false) :
    trimJS (joinSp F) = joinSp F := by
  induction F with
  | nil => exact absurd rfl hne
  | cons w F2 ih =>
    cases F2 with
    | nil =>
      obtain ⟨hwne, hwsf⟩ := hw w (List.mem_cons_self _ _)
      simp only [joinSp]
      exact trimJS_eq_self_of_spacefree w hwsf
    | cons y F3 =>
      obtain ⟨hwne, hwsf⟩ := hw w (List.mem_cons_self _ _)
      have hw2 : ∀ v ∈ y :: F3, v ≠ [] ∧ ∀ c ∈ v, isJsSpace c = false :=
        fun v hv => hw v (List.mem_cons_of_mem _ hv)
      rw [joinSp_cons w (y :: F3) (by simp)]
      obtain ⟨d, X, hdX, hd⟩ := joinSp_head_ne (y :: F3) (by simp) hw2
      rw [trim_word_space_word w (joinSp (y :: F3)) hwne hwsf d X hdX hd]
      rw [ih (by simp) hw2]

theorem joinSp_chars (V : List (List Char)) :
    ∀ c ∈ joinSp V, c = ' ' ∨ ∃ v ∈ V, c ∈ v := by
  induction V with
  | nil => simp [joinSp]
  | cons w F2 ih =>
    cases hF2 : F2 with
    | nil =>
      intro c hc
      right
      exact ⟨w, List.mem_cons_self _ _, hc⟩
    | cons y F3 =>
      intro c hc
      rw [← hF2, joinSp_cons w F2 (by rw [hF2]; simp)] at hc
      rcases List.mem_append.mp hc with h1 | h2
      · right
        exact ⟨w, List.mem_cons_self _ _, h1⟩
      · rcases List.mem_cons.mp h2 with rfl | h3
        · exact Or.inl rfl
        · rcases ih c h3 with h4 | ⟨v, hv, hcv⟩
          · exact Or.inl h4
          · right
            refine ⟨v, ?_, hcv⟩
            rw [← hF2]
            exact List.mem_cons_of_mem _ hv

theorem mk_data (s : String) : String.mk s.data = s := by
  cases s
  rfl

theorem punct_id_of_word (c : Char)
    (h : isWordChar c = true ∨ isJsSpace c = true) :
    (if isWordChar c || isJsSpace c then c else ' ') = c := by
  rcases h with h | h <;> rw [if_pos (by simp [h])]

theorem punct_char_P (d : Char) (hst : d.toLower = d) :
    isJsSpace (if isWordChar d || isJsSpace d then d else ' ') = true ∨
      (isWordChar (if isWordChar d || isJsSpace d then d else ' ') = true ∧
       (if isWordChar d || isJsSpace d then d else ' ').toLower =
         (if isWordChar d || isJsSpace d then d else ' ')) := by
  by_cases hw : (isWordChar d || isJsSpace d) = true
  · rw [if_pos hw]
    rcases (by simpa using hw : isWordChar d = true ∨ isJsSpace d = true) with h1 | h2
    · exact Or.inr ⟨h1, hst⟩
    · exact Or.inl h2
  · rw [if_neg hw]
    exact Or.inl (by decide)

set_option maxHeartbeats 4000000 in
theorem synonyms_values_good :
    (SYNONYMS.all fun p => (!p.2.data.isEmpty) &&
      p.2.data.all (fun c => isWordChar c && (c.toLower == c)) &&
      keepWord p.2) = true := by decide

theorem preprocess_fix (V : List (List Char)) (hV : V ≠ [])
    (hgood : ∀ v ∈ V, v ≠ [] ∧ (∀ c ∈ v, isWordChar c = true ∧ c.toLower = c) ∧
      keepWord (String.mk v) = true ∧ mapSyn (String.mk v) = String.mk v) :
    preprocess (String.mk (joinSp V)) = String.mk (joinSp V) := by
  have hchar : ∀ c ∈ joinSp V, c = ' ' ∨ (isWordChar c = true ∧ c.toLower = c) := by
    intro c hc
    rcases joinSp_chars V c hc with h | ⟨v, hv, hcv⟩
    · exact Or.inl h
    · exact Or.inr ((hgood v hv).2.1 c hcv)
  have hmne : joinSp V ≠ [] := by
    intro hcon
    exact hV (joinSp_eq_nil V (fun w hw => (hgood w hw).1) hcon)
  have hwordprop : ∀ w ∈ V, w ≠ [] ∧ ∀ c ∈ w, isJsSpace c = false :=
    fun w hw => ⟨(hgood w hw).1, fun c hc => word_not_space c ((hgood w hw).2.1 c hc).1⟩
  have hsne : ¬((String.mk (joinSp V) == "") = true) := by
    intro hb
    have h1 : String.mk (joinSp V) = "" := eq_of_beq hb
    have h2 : joinSp V = [] := congrArg String.data h1
    exact hmne h2
  have h1 : (joinSp V).map Char.toLower = joinSp V := by
    apply map_id_of_all
    intro c hc
    rcases hchar c hc with rfl | ⟨_, hst⟩
    · decide
    · exact hst
  have h2 : trimJS (joinSp V) = joinSp V := trimJS_joinSp V hV hwordprop
  have hq : ∀ c ∈ joinSp V, (c == dq || c == sq) = false := by
    intro c hc
    rcases hchar c hc with rfl | ⟨hw, _⟩
    · decide
    · exact word_not_quote c hw
  have h3 : extractScanF (joinSp V).length (joinSp V) 0 = (joinSp V, []) :=
    extractScanF_noquote _ _ _ hq
  have h4 : (joinSp V).map (fun c => if isWordChar c || isJsSpace c then c else ' ')
      = joinSp V := by
    apply map_id_of_all
    intro c hc
    rcases hchar c hc with rfl | ⟨hw, _⟩
    · exact punct_id_of_word ' ' (Or.inr (by decide))
    · exact punct_id_of_word c (Or.inl hw)
  have h6 : wsWords (joinSp V) = V := wsWords_joinSp V hwordprop
  have h7 : splitSp (joinSp V) = V :=
    splitSp_joinSp V hV
      (fun w hw c hc => not_space_beq c ((hwordprop w hw).2 c hc))
  have h8 : V.filter (fun w => keepWord (String.mk w)) = V :=
    list_filter_eq_self_of_all _ V (fun w hw => (hgood w hw).2.2.1)
  have h9 : V.map (fun w => (mapSyn (String.mk w)).data) = V := by
    apply list_map_id_of_all
    intro w hw
    rw [(hgood w hw).2.2.2]
  unfold preprocess
  rw [if_neg hsne]
  unfold preprocessCore
  simp only [h1, h2, h3, h4, trimJS_collapseWs, h6, h7, h8, h9, restoreLits]

theorem preprocessCore_noquote_form (l : List Char)
    (hq : ∀ c ∈ l, (c == dq || c == sq) = false)
    (hproto : ∀ w ∈ wsWords ((trimJS (l.map Char.toLower)).map
      (fun c => if isWordChar c || isJsSpace c then c else ' ')),
      protoLookup (String.mk w) = none) :
    preprocessCore l = [] ∨
    ∃ V, V ≠ [] ∧
      (∀ v ∈ V, v ≠ [] ∧ (∀ c ∈ v, isWordChar c = true ∧ c.toLower = c) ∧
        keepWord (String.mk v) = true ∧ mapSyn (String.mk v) = String.mk v) ∧
      preprocessCore l = joinSp V := by
  have hq1 : ∀ c ∈ trimJS (l.map Char.toLower), (c == dq || c == sq) = false := by
    intro c hc
    obtain ⟨d, hd, rfl⟩ := List.mem_map.mp (mem_trimJS _ c hc)
    exact toLower_not_quote d (hq d hd)
  have hst1 : ∀ c ∈ trimJS (l.map Char.toLower), c.toLower = c := by
    intro c hc
    obtain ⟨d, hd, rfl⟩ := List.mem_map.mp (mem_trimJS _ c hc)
    exact toLower_idem d
  have h3 : extractScanF (trimJS (l.map Char.toLower)).length
      (trimJS (l.map Char.toLower)) 0 = (trimJS (l.map Char.toLower), []) :=
    extractScanF_noquote _ _ _ hq1
  set c3 := (trimJS (l.map Char.toLower)).map
    (fun c => if isWordChar c || isJsSpace c then c else ' ') with hc3
  have hcore : preprocessCore l =
      joinSp (((splitSp (joinSp (wsWords c3))).filter
        (fun w => keepWord (String.mk w))).map
        (fun w => (mapSyn (String.mk w)).data)) := by
    unfold preprocessCore
    rw [hc3]
    simp only [h3, trimJS_collapseWs, restoreLits]
  have hP : ∀ c ∈ c3, isJsSpace c = true ∨ (isWordChar c = true ∧ c.toLower = c) := by
    intro c hc
    rw [hc3] at hc
    obtain ⟨d, hd, rfl⟩ := List.mem_map.mp hc
    exact punct_char_P d (hst1 d hd)
  have hWne : ∀ w ∈ wsWords c3, w ≠ [] := fun w hw => wsWordsAux_ne c3 [] w hw
  have hWch : ∀ w ∈ wsWords c3, ∀ c ∈ w,
      (isWordChar c = true ∧ c.toLower = c) ∧ isJsSpace c = false := by
    intro w hw c hc
    have hres := wsWordsAux_chars
      (fun c => isJsSpace c = true ∨ (isWordChar c = true ∧ c.toLower = c))
      c3 [] hP (by simp) w hw c hc
    rcases hres with ⟨hp, hs⟩
    rcases hp with hsp | hg
    · rw [hsp] at hs
      cases hs
    · exact ⟨hg, hs⟩
  cases hW : wsWords c3 with
  | nil =>
    left
    rw [hcore, hW]
    decide
  | cons w0 Wr =>
    have hsp : splitSp (joinSp (wsWords c3)) = wsWords c3 := by
      apply splitSp_joinSp _ (by rw [hW]; simp)
      intro w hw c hc
      exact not_space_beq c (hWch w hw c hc).2
    rw [hcore, hsp]
    cases hF : (wsWords c3).filter (fun w => keepWord (String.mk w)) with
    | nil =>
      left
      rfl
    | cons f0 Fr =>
      right
      refine ⟨(f0 :: Fr).map (fun w => (mapSyn (String.mk w)).data),
        by simp, ?_, rfl⟩
      intro v hv
      obtain ⟨w, hwmem0, rfl⟩ := List.mem_map.mp hv
      have hwmem : w ∈ (wsWords c3).filter (fun w => keepWord (String.mk w)) := by
        rw [hF]
        exact hwmem0
      have hwf := List.mem_filter.mp hwmem
      have hgw := hWch w hwf.1
      have hwne := hWne w hwf.1
      cases hsl : synLookup (String.mk w) with
      | none =>
        have hms : mapSyn (String.mk w) = String.mk w := by
          unfold mapSyn
          rw [hsl]
          rfl
        rw [hms]
        show w ≠ [] ∧ (∀ c ∈ w, isWordChar c = true ∧ c.toLower = c) ∧
          keepWord (String.mk w) = true ∧ mapSyn (String.mk w) = String.mk w
        exact ⟨hwne, fun c hc => (hgw c hc).1, hwf.2, hms⟩
      | some u =>
        have hms : mapSyn (String.mk w) = u := by
          unfold mapSyn
          rw [hsl]
          rfl
        rw [hms]
        have hmem := synLookup_mem _ _ hsl (hproto w hwf.1)
        have hfact := List.all_eq_true.mp synonyms_values_good _ hmem
        simp only [Bool.and_eq_true] at hfact
        obtain ⟨⟨hne2, hall⟩, hkeep⟩ := hfact
        have hstab : mapSyn u = u :=
          eq_of_beq (List.all_eq_true.mp synonyms_values_stable _ hmem)
        refine ⟨by simpa using hne2, ?_, ?_, ?_⟩
        · intro c hc
          have hcf := List.all_eq_true.mp hall c hc
          have hcf2 : isWordChar c = true ∧ (c.toLower == c) = true := by
            simpa using hcf
          exact ⟨hcf2.1, eq_of_beq hcf2.2⟩
        · rw [mk_data]
          exact hkeep
        · rw [mk_data]
          exact hstab

/-- C7 (amended).  `preprocess` is idempotent on every input that contains
no quote character and none of whose looked-up words is one of the two
lowercase `Object.prototype` names (`constructor`, `__proto__`) that leak
through `SYNONYMS[word]`: the first pass then leaves only lowercase
word-characters separated by single spaces, already filtered and
synonym-mapped, and a second pass changes nothing. -/
theorem C7_amended_idempotent (s : String) (h : quoteFree s = true)
    (h2 : protoWordFree s = true) :
    preprocess (preprocess s) = preprocess s := by
  by_cases hs : s = ""
  · subst hs
    decide
  · have hq : ∀ c ∈ s.data, (c == dq || c == sq) = false := by
      intro c hc
      have h3 := List.all_eq_true.mp h c hc
      simpa using h3
    have hproto : ∀ w ∈ wsWords ((trimJS (s.data.map Char.toLower)).map
        (fun c => if isWordChar c || isJsSpace c then c else ' ')),
        protoLookup (String.mk w) = none := by
      intro w hw
      have h3 := List.all_eq_true.mp h2 w hw
      simp only [Bool.not_eq_eq_eq_not, Bool.not_true, Bool.or_eq_false_iff] at h3
      unfold protoLookup
      rw [if_neg (by simp [h3.1]), if_neg (by simp [h3.2])]
    have hpre : preprocess s = String.mk (preprocessCore s.data) := by
      unfold preprocess
      rw [if_neg (by simp [hs])]
    rcases preprocessCore_noquote_form s.data hq hproto with hnil | ⟨V, hVne, hgood, hform⟩
    · rw [hpre, hnil]
      decide
    · rw [hpre, hform]
      exact preprocess_fix V hVne hgood

/-- Witness for C7: the idempotence theorem applied to the concrete
quote-free, prototype-word-free input `create variable x value 10`. -/
theorem C7_amended_witness :
    (quoteFree "create variable x value 10" = true ∧
     protoWordFree "create variable x value 10" = true) ∧
    preprocess (preprocess "create variable x value 10") =
      preprocess "create variable x value 10" :=
  ⟨⟨by decide, by decide⟩,
    C7_amended_idempotent "create variable x value 10" (by decide) (by decide)⟩

end CodeWriter
